import Mathlib

/-!
Verification of the ERD-generator repository (schema model, SQL migration
scanning, table layout, draw.io edge resolution, PNG container encoding).

The development is a shallow embedding of the Python sources under
`src/erd_generator/`.  Python strings are modelled as `List Char` (`Str`),
Python `dict`s (which preserve insertion order) as association lists with
update-in-place semantics, Python `set`s of strings as insertion-ordered
duplicate-free lists (every observation the code makes of such a set is
order-insensitive or explicitly sorted), and Python `int`/exact-valued
`float` arithmetic as `Int`.  ASCII case mapping models `str.lower` /
`str.upper` on the identifier and SQL texts the tool handles.
-/

/-- Python strings, modelled as lists of characters. -/
abbrev Str := List Char

/-- Shorthand turning a Lean string literal into the `Str` model. -/
def strOf (s : String) : Str := s.data

/-- Characters treated as whitespace by Python `str.strip` / `str.split`
(space, tab, newline, carriage return, vertical tab, form feed). -/
def isPyWs (c : Char) : Bool :=
  c = ' ' || c = '\t' || c = '\n' || c = '\r' || c = '\x0b' || c = '\x0c'

/-- ASCII lower-casing of one character, as `str.lower` acts on the
ASCII range (the only range the modelled identifiers use). -/
def pyLowerChar (c : Char) : Char :=
  if 'A' ≤ c ∧ c ≤ 'Z' then Char.ofNat (c.toNat + 32) else c

/-- ASCII upper-casing of one character, as `str.upper` acts on ASCII. -/
def pyUpperChar (c : Char) : Char :=
  if 'a' ≤ c ∧ c ≤ 'z' then Char.ofNat (c.toNat - 32) else c

/-- `str.lower` on the modelled string. -/
def pyLower (s : Str) : Str := s.map pyLowerChar

/-- `str.upper` on the modelled string. -/
def pyUpper (s : Str) : Str := s.map pyUpperChar

/-- `str.lstrip()`: drop leading whitespace. -/
def pyLstrip (s : Str) : Str := s.dropWhile isPyWs

/-- `str.strip()`: drop leading and trailing whitespace. -/
def pyStrip (s : Str) : Str := pyLstrip ((pyLstrip s.reverse).reverse)

/-- `sub in s`: substring containment, Python's `in` on strings. -/
def pyContains : Str → Str → Bool
  | [], sub => sub.isEmpty
  | c :: rest, sub => sub.isPrefixOf (c :: rest) || pyContains rest sub

/-- `s.startswith(p)`. -/
def pyStartsWith (s p : Str) : Bool := p.isPrefixOf s

/-- `s.split(sep)` for a one-character separator: split on every
occurrence, keeping empty chunks (Python semantics). -/
def pySplitChar (sep : Char) (s : Str) : List Str :=
  match s with
  | [] => [[]]
  | c :: rest =>
    let tail := pySplitChar sep rest
    if c = sep then [] :: tail
    else
      match tail with
      | [] => [[c]]
      | t :: ts => (c :: t) :: ts

/-- `str.join` with a one-character separator (inverse of `pySplitChar`). -/
def pyJoinChar (sep : Char) : List Str → Str
  | [] => []
  | [p] => p
  | p :: ps => p ++ sep :: pyJoinChar sep ps

/-- Helper for `pySplitWs`: scans the string, accumulating the current
token in reverse. -/
def pySplitWsAux : Str → Str → List Str
  | [], acc => if acc = [] then [] else [acc.reverse]
  | c :: rest, acc =>
    if isPyWs c then
      if acc = [] then pySplitWsAux rest []
      else acc.reverse :: pySplitWsAux rest []
    else pySplitWsAux rest (c :: acc)

/-- `s.split()` with no argument: whitespace-separated tokens, no empties. -/
def pySplitWs (s : Str) : List Str := pySplitWsAux s []

/-- `" ".join parts`. -/
def joinSpace (parts : List Str) : Str := pyJoinChar ' ' parts

/-- Python string comparison (`sorted` order): lexicographic by code point. -/
def strLt : Str → Str → Bool
  | [], [] => false
  | [], _ :: _ => true
  | _ :: _, [] => false
  | a :: as, b :: bs => if a = b then strLt as bs else decide (a < b)

/-- Insertion sort with Python's string ordering (used for `sorted(...)`). -/
def sortStrs (l : List Str) : List Str :=
  let rec insert (x : Str) : List Str → List Str
    | [] => [x]
    | y :: ys => if strLt x y then x :: y :: ys else y :: insert x ys
  match l with
  | [] => []
  | x :: xs => insert x (sortStrs xs)

section Schema

/-!
## Schema data model (`src/erd_generator/schema.py`)
-/

/-- `Column` dataclass. -/
structure Column where
  name : Str
  data_type : Str := []
  nullable : Bool := true
  is_primary_key : Bool := false
deriving DecidableEq, Repr

/-- `ForeignKey` dataclass. -/
structure ForeignKey where
  columns : List Str
  ref_table : Str
  ref_columns : List Str
  name : Option Str := none
deriving DecidableEq, Repr

/-- `Index` dataclass. -/
structure Index where
  name : Option Str
  columns : List Str
  expression_columns : List Str := []
  column_names : List (Option Str) := []
  unique : Bool := false
  method : Option Str := none
  whereClause : Option Str := none
deriving DecidableEq, Repr

/-- `Table` dataclass.  `primary_key` is a Python `set` of strings,
modelled as an insertion-ordered duplicate-free list; `constraint_types`
is a `dict`, modelled as an insertion-ordered association list. -/
structure Table where
  name : Str
  columns : List Column := []
  primary_key : List Str := []
  foreign_keys : List ForeignKey := []
  indexes : List Index := []
  constraint_types : List (Str × Str) := []
  primary_key_name : Option Str := none
deriving DecidableEq, Repr

/-- `set.add`: insert if not already present (modelled set). -/
def setAdd (s : List Str) (x : Str) : List Str :=
  if x ∈ s then s else s ++ [x]

/-- Python `dict` lookup `d.get(k)` on the association-list model. -/
def dget [DecidableEq κ] : List (κ × α) → κ → Option α
  | [], _ => none
  | (k, v) :: rest, key => if k = key then some v else dget rest key

/-- Python `dict` assignment `d[k] = v`: update in place if the key is
present (keeping its position), otherwise append. -/
def dset [DecidableEq κ] : List (κ × α) → κ → α → List (κ × α)
  | [], key, v => [(key, v)]
  | (k, w) :: rest, key, v =>
    if k = key then (k, v) :: rest else (k, w) :: dset rest key v

/-- Python `dict.pop(k, None)`: remove the entry if present. -/
def dpop [DecidableEq κ] : List (κ × α) → κ → List (κ × α)
  | [], _ => []
  | (k, v) :: rest, key => if k = key then rest else (k, v) :: dpop rest key

/-- The dictionary's keys in insertion order (`d.keys()`). -/
def dkeys (d : List (κ × α)) : List κ := d.map Prod.fst

/-- The dictionary's values in insertion order (`d.values()`). -/
def dvalues (d : List (κ × α)) : List α := d.map Prod.snd

/-- `Schema = Dict[str, Table]`. -/
abbrev Schema := List (Str × Table)

/-- `Table.get_column`: first column whose lower-cased name matches the
lower-cased argument. -/
def Table.get_column (t : Table) (column_name : Str) : Option Column :=
  t.columns.find? (fun c => pyLower c.name = pyLower column_name)

/-- `Table.sync_primary_key_flags`. -/
def Table.sync_primary_key_flags (t : Table) : Table :=
  let pk_columns := t.primary_key.map pyLower
  { t with columns := t.columns.map (fun c =>
      { c with is_primary_key := pyLower c.name ∈ pk_columns }) }

/-- `Table.add_foreign_key` (appends; records the constraint kind when a
name is supplied). -/
def Table.add_foreign_key (t : Table) (fk : ForeignKey)
    (constraint_name : Option Str := none) : Table :=
  match constraint_name with
  | some cn =>
    let key := pyLower cn
    { t with foreign_keys := t.foreign_keys ++ [{ fk with name := some key }],
             constraint_types := dset t.constraint_types key (strOf "foreign_key") }
  | none =>
    match fk.name with
    | some n =>
      let key := pyLower n
      { t with foreign_keys := t.foreign_keys ++ [{ fk with name := some key }],
               constraint_types := dset t.constraint_types key (strOf "foreign_key") }
    | none => { t with foreign_keys := t.foreign_keys ++ [fk] }

/-- `Table.rename_column` (renames in columns, primary-key set, local and
self-referential foreign-key column lists, and indexes). -/
def Table.rename_column (t : Table) (old_name new_name : Str) : Table :=
  let old_key := pyLower old_name
  let columns := t.columns.map (fun c =>
    if pyLower c.name = old_key then { c with name := new_name } else c)
  let updated_pk := t.primary_key.foldl (fun acc col =>
    if pyLower col = old_key then setAdd acc new_name else setAdd acc col) []
  let fks := t.foreign_keys.map (fun fk =>
    let fk := { fk with columns := fk.columns.map (fun col =>
      if pyLower col = old_key then new_name else col) }
    if fk.ref_table = t.name then
      { fk with ref_columns := fk.ref_columns.map (fun col =>
          if pyLower col = old_key then new_name else col) }
    else fk)
  let idxs := t.indexes.map (fun idx =>
    let column_names :=
      if idx.column_names ≠ [] ∧ idx.column_names.length ≠ idx.columns.length then
        idx.columns.map (fun col => some (pyLower col))
      else idx.column_names
    let pairs := idx.columns.zip column_names
    let changed := column_names.any (fun cn => cn.any (fun n => pyLower n = old_key))
    if changed then
      { idx with
        columns := pairs.map (fun (col, cn) =>
          if cn.any (fun n => pyLower n = old_key) then pyUpper new_name else col),
        column_names := column_names.map (fun cn =>
          if cn.any (fun n => pyLower n = old_key) then some (pyLower new_name) else cn) }
    else idx)
  Table.sync_primary_key_flags
    { t with columns := columns, primary_key := updated_pk,
             foreign_keys := fks, indexes := idxs }

/-- The loop body of `rename_table`: retarget every foreign key whose
target is the old table name. -/
def fkRetarget (old_name new_name : Str) (t : Table) : Table :=
  { t with foreign_keys := t.foreign_keys.map (fun fk =>
      if fk.ref_table = old_name then { fk with ref_table := new_name } else fk) }

/-- `rename_table` (module-level helper over the whole `Schema`). -/
def rename_table (schema : Schema) (old_name new_name : Str) : Schema :=
  match dget schema old_name with
  | none => schema
  | some table =>
    let schema := dpop schema old_name
    let table := { table with name := new_name }
    let schema := dset schema new_name table
    schema.map (fun p => (p.1, fkRetarget old_name new_name p.2))

/-- The loop body of `rename_column_in_schema`: on every table other
than the renamed one, rewrite the target columns of foreign keys whose
target table is the renamed table. -/
def fkRetargetColumn (table_name old_name new_name : Str) (t : Table) : Table :=
  if t.name = table_name then t
  else
    { t with foreign_keys := t.foreign_keys.map (fun fk =>
        if fk.ref_table = table_name then
          { fk with ref_columns := fk.ref_columns.map (fun col =>
              if pyLower col = pyLower old_name then new_name else col) }
        else fk) }

/-- `rename_column_in_schema` (module-level helper over the whole `Schema`). -/
def rename_column_in_schema (schema : Schema) (table_name old_name new_name : Str) :
    Schema :=
  match dget schema table_name with
  | none => schema
  | some table =>
    let schema := dset schema table_name (table.rename_column old_name new_name)
    schema.map (fun p => (p.1, fkRetargetColumn table_name old_name new_name p.2))

end Schema

section SqlScan

/-!
## Migration-text scanning (`src/erd_generator/sql_parser.py`)

The regular expressions of the source are hand-compiled to scanners over
`Str`.  Each regex there is deterministic once greedy/lazy operators are
resolved (maximal munch for `[\w.]*` / `[^)]+` followed by a character
outside the class, first-closing position for the lazy `.*?` captures),
so each scanner below implements exactly the language of its regex.
-/

/-- `STOP_WORDS` from the source (terminators of a column's type text). -/
def STOP_WORDS : List Str :=
  [strOf "PRIMARY", strOf "REFERENCES", strOf "NOT", strOf "NULL",
   strOf "DEFAULT", strOf "UNIQUE", strOf "CHECK", strOf "CONSTRAINT",
   strOf "GENERATED", strOf "AS"]

/-- `split_top_level_commas`: depth-tracking splitter.  Depth rises on
`(`, falls on `)` without going below zero (`Nat` subtraction models
`max(0, depth - 1)`), and a comma terminates an item only at depth 0;
stripped-empty items are dropped.  The buffer is accumulated reversed. -/
def splitCommasGo : Str → Nat → Str → List Str
  | [], _, buf =>
    let tail := pyStrip buf.reverse
    if tail = [] then [] else [tail]
  | ch :: rest, depth, buf =>
    let depth := if ch = '(' then depth + 1 else if ch = ')' then depth - 1 else depth
    if ch = ',' ∧ depth = 0 then
      let part := pyStrip buf.reverse
      if part = [] then splitCommasGo rest depth []
      else part :: splitCommasGo rest depth []
    else splitCommasGo rest depth (ch :: buf)

/-- `split_top_level_commas(text)`. -/
def split_top_level_commas (text : Str) : List Str := splitCommasGo text 0 []

/-- Whether a segment starts and ends with a double quote
(`part.startswith('"') and part.endswith('"')`; true for the single
character `"` as in Python). -/
def isQuotedSeg (p : Str) : Bool :=
  match p with
  | [] => false
  | c :: rest => c = '"' ∧ (c :: rest).getLast? = some '"'

/-- The text between the first and last character (`part[1:-1]`). -/
def innerSeg (p : Str) : Str := (p.drop 1).dropLast

/-- `normalize_identifier`: strip, then per dot-separated segment strip
and either keep the quoted inner text or lower-case. -/
def normalize_identifier (identifier : Str) : Str :=
  let identifier := pyStrip identifier
  if identifier = [] then identifier
  else
    pyJoinChar '.' ((pySplitChar '.' identifier).map (fun part =>
      let part := pyStrip part
      if isQuotedSeg part then innerSeg part else pyLower part))

/-- `split_identifier_list(raw)`: split on commas, drop blank chunks,
normalize each chunk. -/
def split_identifier_list (raw : Str) : List Str :=
  ((pySplitChar ',' raw).filter (fun chunk => pyStrip chunk ≠ [])).map normalize_identifier

/-- Consume a literal case-insensitively (pattern supplied lower-case),
returning the remainder. -/
def matchLitCI : Str → Str → Option Str
  | [], s => some s
  | _ :: _, [] => none
  | c :: cs, x :: xs => if pyLowerChar x = c then matchLitCI cs xs else none

/-- Consume `\s+`: at least one whitespace character, maximal. -/
def matchWs1 : Str → Option Str
  | [] => none
  | x :: xs => if isPyWs x then some (xs.dropWhile isPyWs) else none

/-- Consume `\s*`. -/
def skipWs (s : Str) : Str := s.dropWhile isPyWs

/-- `\w` character class. -/
def isWordChar (c : Char) : Bool :=
  ('a' ≤ c ∧ c ≤ 'z') ∨ ('A' ≤ c ∧ c ≤ 'Z') ∨ ('0' ≤ c ∧ c ≤ '9') ∨ c = '_'

/-- `[a-zA-Z_]` character class. -/
def isAlphaUnd (c : Char) : Bool :=
  ('a' ≤ c ∧ c ≤ 'z') ∨ ('A' ≤ c ∧ c ≤ 'Z') ∨ c = '_'

/-- Capture a name token: `"[^"]+"` (kept with its quotes, as the regex
group captures them) or `[a-zA-Z_][\w.]*` / `[a-zA-Z_][\w]*` depending on
whether dots are admitted.  Returns the captured text and the remainder. -/
def matchNameTok (withDots : Bool) : Str → Option (Str × Str)
  | [] => none
  | '"' :: rest =>
    let inner := rest.takeWhile (fun c => c ≠ '"')
    (match rest.dropWhile (fun c => c ≠ '"') with
     | '"' :: rest2 => if inner = [] then none
                       else some ('"' :: (inner ++ ['"']), rest2)
     | _ => none)
  | c :: rest =>
    if isAlphaUnd c then
      let p := fun ch => isWordChar ch ∨ (withDots ∧ ch = '.')
      some (c :: rest.takeWhile p, rest.dropWhile p)
    else none

/-- Capture `[^)]+` followed by `)`: nonempty run of non-`)` characters. -/
def matchParenContent (s : Str) : Option (Str × Str) :=
  let content := s.takeWhile (fun c => c ≠ ')')
  match s.dropWhile (fun c => c ≠ ')') with
  | ')' :: rest => if content = [] then none else some (content, rest)
  | _ => none

/-- Capture `.*?` up to (and consuming) the first `)`; the capture may
be empty. -/
def matchLazyToClose (s : Str) : Option (Str × Str) :=
  let content := s.takeWhile (fun c => c ≠ ')')
  match s.dropWhile (fun c => c ≠ ')') with
  | ')' :: rest => some (content, rest)
  | _ => none

/-- Consume `(` . -/
def matchOpen : Str → Option Str
  | '(' :: rest => some rest
  | _ => none

/-- The lazy body capture of `CREATE_TABLE_RE`: everything before the
first occurrence of the two-character sequence `);`, consuming it. -/
def splitAtCloseSemi : Str → Option (Str × Str)
  | [] => none
  | [_] => none
  | a :: b :: rest =>
    if a = ')' ∧ b = ';' then some ([], rest)
    else (splitAtCloseSemi (b :: rest)).map (fun pr => (a :: pr.1, pr.2))

/-- Optionally consume `IF\s+NOT\s+EXISTS\s+` (the optional group of
`CREATE_TABLE_RE`; the greedy attempt is deterministic, see section
comment). -/
def tryIfNotExists (s : Str) : Str :=
  match (do
    let s ← matchLitCI (strOf "if") s
    let s ← matchWs1 s
    let s ← matchLitCI (strOf "not") s
    let s ← matchWs1 s
    let s ← matchLitCI (strOf "exists") s
    matchWs1 s) with
  | some s' => s'
  | none => s

/-- Attempt `CREATE_TABLE_RE` anchored at the start of `s`; on success
returns the raw name capture, the body capture and the remainder after
the match. -/
def matchCreateAt (s : Str) : Option ((Str × Str) × Str) := do
  let s ← matchLitCI (strOf "create") s
  let s ← matchWs1 s
  let s ← matchLitCI (strOf "table") s
  let s ← matchWs1 s
  let s := tryIfNotExists s
  let (name, s) ← matchNameTok true s
  let s := skipWs s
  let s ← matchOpen s
  let (body, s) ← splitAtCloseSemi s
  some ((name, body), s)

/-- `finditer` scan: try the anchored matcher at every position, left to
right, continuing after each match (fuel is the text length; every match
consumes at least one character). -/
def scanCreateAux : Nat → Str → List (Str × Str)
  | 0, _ => []
  | _, [] => []
  | fuel + 1, s@(_ :: rest) =>
    match matchCreateAt s with
    | some (capture, after) => capture :: scanCreateAux fuel after
    | none => scanCreateAux fuel rest

/-- All `CREATE_TABLE_RE` matches of a text, as (raw name, body) pairs. -/
def scanCreate (s : Str) : List (Str × Str) := scanCreateAux s.length s

/-- `PRIMARY_KEY_RE` attempted at the start of `s`: captures the column
list of `PRIMARY KEY (...)`. -/
def matchPrimaryKeyAt (s : Str) : Option Str := do
  let s ← matchLitCI (strOf "primary") s
  let s ← matchWs1 s
  let s ← matchLitCI (strOf "key") s
  let s := skipWs s
  let s ← matchOpen s
  let (cols, _) ← matchParenContent s
  some cols

/-- `PRIMARY_KEY_RE.search`. -/
def searchPrimaryKey : Str → Option Str
  | [] => none
  | s@(_ :: rest) =>
    match matchPrimaryKeyAt s with
    | some cols => some cols
    | none => searchPrimaryKey rest

/-- `TABLE_FOREIGN_KEY_RE` attempted at the start of `s`: captures the
local columns, the referenced table and the referenced columns of a
table-level `FOREIGN KEY (...) REFERENCES t (...)`. -/
def matchTableFkAt (s : Str) : Option (Str × Str × Str) := do
  let s ← matchLitCI (strOf "foreign") s
  let s ← matchWs1 s
  let s ← matchLitCI (strOf "key") s
  let s := skipWs s
  let s ← matchOpen s
  let (src, s) ← matchParenContent s
  let s := skipWs s
  let s ← matchLitCI (strOf "references") s
  let s ← matchWs1 s
  let (refTable, s) ← matchNameTok true s
  let s := skipWs s
  let s ← matchOpen s
  let (ref, _) ← matchParenContent s
  some (src, refTable, ref)

/-- `TABLE_FOREIGN_KEY_RE.search`. -/
def searchTableFk : Str → Option (Str × Str × Str)
  | [] => none
  | s@(_ :: rest) =>
    match matchTableFkAt s with
    | some r => some r
    | none => searchTableFk rest

/-- `INLINE_FOREIGN_KEY_RE` attempted at the start of `s`: captures the
referenced table and columns of `REFERENCES t (...)`. -/
def matchInlineFkAt (s : Str) : Option (Str × Str) := do
  let s ← matchLitCI (strOf "references") s
  let s ← matchWs1 s
  let (tb, s) ← matchNameTok true s
  let s := skipWs s
  let s ← matchOpen s
  let (cols, _) ← matchParenContent s
  some (tb, cols)

/-- `INLINE_FOREIGN_KEY_RE.search`. -/
def searchInlineFk : Str → Option (Str × Str)
  | [] => none
  | s@(_ :: rest) =>
    match matchInlineFkAt s with
    | some r => some r
    | none => searchInlineFk rest

/-- The column-definition head regex
`^("[^"]+"|[a-zA-Z_][\w]*)\s+(?P<rest>.*)$`: the column name token, at
least one space, and the rest of the item. -/
def colNameRest (s : Str) : Option (Str × Str) := do
  let (name, s) ← matchNameTok false s
  match s with
  | x :: xs => if isPyWs x then some (name, xs.dropWhile isPyWs) else none
  | [] => none

end SqlScan

section SqlParse

/-!
## Statement processing (`src/erd_generator/sql_parser.py`, continued)
-/

/-- `Table(name=...)`: a fresh stub table. -/
def stubTable (name : Str) : Table := { name := name }

/-- `parse_column_definition(item, table)`: skip blank or
constraint-prefixed items, split the head token from the modifier tail,
derive type text / nullability / primary-key flag, and append an inline
single-column foreign key when a `REFERENCES t(...)` clause occurs. -/
def parse_column_definition (item : Str) (t : Table) : Table :=
  let item := pyStrip item
  if item = [] then t
  else if [strOf "CONSTRAINT", strOf "PRIMARY", strOf "FOREIGN",
           strOf "UNIQUE", strOf "CHECK"].any
          (fun p => pyStartsWith (pyUpper item) p) then t
  else
    match colNameRest item with
    | none => t
    | some (raw_name, rest0) =>
      let rest := pyStrip rest0
      let name := normalize_identifier raw_name
      let tokens := pySplitWs rest
      let type_parts := tokens.takeWhile (fun tok => ¬ pyUpper tok ∈ STOP_WORDS)
      let data_type := joinSpace type_parts
      let nullable := ¬ pyContains (pyUpper rest) (strOf "NOT NULL")
      let is_pk := pyContains (pyUpper rest) (strOf "PRIMARY KEY")
      let column : Column := ⟨name, data_type, nullable, is_pk⟩
      let t := { t with
        columns := t.columns ++ [column],
        primary_key := if is_pk then setAdd t.primary_key name else t.primary_key }
      match searchInlineFk rest with
      | some (rawTable, rawCols) =>
        { t with foreign_keys := t.foreign_keys ++
            [⟨[name], normalize_identifier rawTable, split_identifier_list rawCols, none⟩] }
      | none => t

/-- `parse_table_constraint(item, table)`: add the columns of a
`PRIMARY KEY (...)` occurrence to the key set, and append a table-level
foreign key when `FOREIGN KEY (...) REFERENCES t (...)` occurs. -/
def parse_table_constraint (item : Str) (t : Table) : Table :=
  let t :=
    match searchPrimaryKey item with
    | some cols => { t with
        primary_key := (split_identifier_list cols).foldl setAdd t.primary_key }
    | none => t
  match searchTableFk item with
  | some (src, refTable, ref) =>
    { t with foreign_keys := t.foreign_keys ++
        [⟨split_identifier_list src, normalize_identifier refTable,
          split_identifier_list ref, none⟩] }
  | none => t

/-- Processing of one `CREATE_TABLE_RE` match inside
`parse_create_table`: fetch or create the entry, clear its columns /
primary key / foreign keys in place, then run the column pass and the
constraint pass over the top-level items of the body. -/
def processCreateMatch (schema : Schema) (rawName body : Str) : Schema :=
  let table_name := normalize_identifier rawName
  let table := (dget schema table_name).getD (stubTable table_name)
  let table := { table with columns := [], primary_key := [], foreign_keys := [] }
  let items := split_top_level_commas body
  let table := items.foldl (fun t item => parse_column_definition item t) table
  let table := items.foldl (fun t item => parse_table_constraint item t) table
  dset schema table_name table

/-- `parse_create_table(sql, schema)`. -/
def parse_create_table (sql : Str) (schema : Schema) : Schema :=
  (scanCreate sql).foldl (fun s nb => processCreateMatch s nb.1 nb.2) schema

/-- Optionally consume `IF\s+EXISTS\s+` (optional group of
`ALTER_TABLE_FK_RE`). -/
def tryIfExists (s : Str) : Str :=
  match (do
    let s ← matchLitCI (strOf "if") s
    let s ← matchWs1 s
    let s ← matchLitCI (strOf "exists") s
    matchWs1 s) with
  | some s' => s'
  | none => s

/-- The tail of `ALTER_TABLE_FK_RE` after its `FOREIGN KEY (`: the lazy
`src` capture grows to the first `)` whose continuation
`\s+REFERENCES\s+(ref_table)\s*\((ref)\)` matches; returns the three
captures and the remainder after the match. -/
def alterTailGo : Str → Str → Option (Str × Str × Str × Str)
  | [], _ => none
  | ')' :: rest, buf =>
    (match (do
      let s ← matchWs1 rest
      let s ← matchLitCI (strOf "references") s
      let s ← matchWs1 s
      let (refTable, s) ← matchNameTok true s
      let s := skipWs s
      let s ← matchOpen s
      let (ref, s) ← matchLazyToClose s
      some (refTable, ref, s)) with
    | some (refTable, ref, s) => some (buf.reverse, refTable, ref, s)
    | none => alterTailGo rest (')' :: buf))
  | c :: rest, buf => alterTailGo rest (c :: buf)

/-- Attempt `ALTER_TABLE_FK_RE` anchored at the start of `s`; returns
the raw table, src columns, raw referenced table and referenced columns
captures, and the remainder after the match. -/
def matchAlterAt (s : Str) : Option ((Str × Str × Str × Str) × Str) :=
  match matchLitCI (strOf "alter") s with
  | none => none
  | some s =>
  match matchWs1 s with
  | none => none
  | some s =>
  match matchLitCI (strOf "table") s with
  | none => none
  | some s =>
  match matchWs1 s with
  | none => none
  | some s =>
  let s := tryIfExists s
  match matchNameTok true s with
  | none => none
  | some (tableName, s) =>
  match matchWs1 s with
  | none => none
  | some s =>
  match matchLitCI (strOf "add") s with
  | none => none
  | some s =>
  match matchWs1 s with
  | none => none
  | some s =>
  match matchLitCI (strOf "constraint") s with
  | none => none
  | some s =>
  match matchWs1 s with
  | none => none
  | some s =>
  match matchNameTok false s with
  | none => none
  | some (_, s) =>
  match matchWs1 s with
  | none => none
  | some s =>
  match matchLitCI (strOf "foreign") s with
  | none => none
  | some s =>
  match matchWs1 s with
  | none => none
  | some s =>
  match matchLitCI (strOf "key") s with
  | none => none
  | some s =>
  match matchOpen (skipWs s) with
  | none => none
  | some s =>
  match alterTailGo s [] with
  | none => none
  | some (src, refTable, ref, s) => some ((tableName, src, refTable, ref), s)

/-- `finditer` scan for `ALTER_TABLE_FK_RE`. -/
def scanAlterAux : Nat → Str → List (Str × Str × Str × Str)
  | 0, _ => []
  | _, [] => []
  | fuel + 1, s@(_ :: rest) =>
    match matchAlterAt s with
    | some (capture, after) => capture :: scanAlterAux fuel after
    | none => scanAlterAux fuel rest

/-- All `ALTER_TABLE_FK_RE` matches of a text. -/
def scanAlter (s : Str) : List (Str × Str × Str × Str) := scanAlterAux s.length s

/-- Processing of one `ALTER_TABLE_FK_RE` match inside
`parse_alter_table`: `setdefault` the altered table, then append the
foreign key. -/
def processAlterMatch (schema : Schema) (rawTable src rawRef ref : Str) : Schema :=
  let table_name := normalize_identifier rawTable
  let (schema, table) :=
    match dget schema table_name with
    | some t => (schema, t)
    | none => (schema ++ [(table_name, stubTable table_name)], stubTable table_name)
  let fk : ForeignKey :=
    ⟨split_identifier_list src, normalize_identifier rawRef,
     split_identifier_list ref, none⟩
  dset schema table_name { table with foreign_keys := table.foreign_keys ++ [fk] }

/-- `parse_alter_table(sql, schema)`. -/
def parse_alter_table (sql : Str) (schema : Schema) : Schema :=
  (scanAlter sql).foldl (fun s c => processAlterMatch s c.1 c.2.1 c.2.2.1 c.2.2.2) schema

/-- Scan for the closing `*/` of a block comment, returning the text
after it. -/
def findCloseBlock : Str → Option Str
  | [] => none
  | '*' :: '/' :: rest => some rest
  | _ :: rest => findCloseBlock rest

/-- `COMMENT_BLOCK_RE.sub("", sql)`: remove every `/* ... */` region
(lazy, so up to the first closing delimiter); an unterminated opener is
left in place, as the regex then has no match. -/
def stripBlockComments : Nat → Str → Str
  | 0, s => s
  | _, [] => []
  | fuel + 1, '/' :: '*' :: rest =>
    (match findCloseBlock rest with
     | some after => stripBlockComments fuel after
     | none => '/' :: '*' :: rest)
  | fuel + 1, c :: rest => c :: stripBlockComments fuel rest

/-- `COMMENT_LINE_RE.sub("", sql)`: remove from each `--` to the end of
its line (the newline itself stays, as `$` is a lookahead). -/
def stripLineComments : Nat → Str → Str
  | 0, s => s
  | _, [] => []
  | fuel + 1, '-' :: '-' :: rest =>
    stripLineComments fuel (rest.dropWhile (fun c => c ≠ '\n'))
  | fuel + 1, c :: rest => c :: stripLineComments fuel rest

/-- `strip_comments(sql)`: block comments first, then line comments. -/
def strip_comments (sql : Str) : Str :=
  let sql := stripBlockComments sql.length sql
  stripLineComments sql.length sql

/-- `parse_schema_from_sql(sql, schema)`. -/
def parse_schema_from_sql (sql : Str) (schema : Schema) : Schema :=
  let sql := strip_comments sql
  parse_alter_table sql (parse_create_table sql schema)

/-- `load_schema_from_migrations`: the sorted file list is abstracted to
the list of file texts in path order; parse each, then resynchronize
every table's primary-key flags. -/
def load_schema_from_migrations (texts : List Str) : Schema :=
  let schema := texts.foldl (fun s t => parse_schema_from_sql t s) []
  schema.map (fun kt => (kt.1, kt.2.sync_primary_key_flags))

end SqlParse

section FkConfig

/-!
## Foreign-key override merge (`src/erd_generator/fk_config.py`)

Only the merge step `apply_foreign_key_config` and its helpers are
modelled; loading the YAML file is an external concern that produces the
already-normalized `ForeignKeyConfigEntry` list.  The lookup maps of
`_SchemaLookup` hold references to `Table` objects; since the merge never
renames or removes schema keys, a reference is modelled as the schema key
of the resolved table, read back from the evolving schema at use time.
-/

/-- `ForeignKeyConfigEntry` (the fields the merge consumes). -/
structure ForeignKeyConfigEntry where
  table_key : Str
  normalized_table : Str
  local_columns : List Str
  reference_table_key : Str
  normalized_reference_table : Str
  reference_columns : List Str
deriving DecidableEq, Repr

/-- `value.rsplit(".", 1)[-1]`: the text after the last dot (the whole
text when it has no dot). -/
def lastDotSegment (s : Str) : Str := ((pySplitChar '.' s).getLast?).getD s

/-- `_SchemaLookup.__init__`: the direct map (lower-cased full name →
table, later entries overwriting) and the suffix map (last name segment
→ table, first entry kept).  Both map to the schema key of the table. -/
def buildLookup (schema : Schema) : List (Str × Str) × List (Str × Str) :=
  schema.foldl (fun maps kt =>
    let lowered := pyLower kt.1
    let direct := dset maps.1 lowered kt.1
    let sfx := lastDotSegment lowered
    let suffix := if (dget maps.2 sfx).isSome then maps.2 else dset maps.2 sfx kt.1
    (direct, suffix)) ([], [])

/-- `_SchemaLookup.resolve`: direct match on the lower-cased identifier,
falling back to its last segment in the suffix map. -/
def lookupResolve (maps : List (Str × Str) × List (Str × Str)) (identifier : Str) :
    Option Str :=
  if identifier = [] then none
  else
    let normalized := pyLower identifier
    match dget maps.1 normalized with
    | some k => some k
    | none => dget maps.2 (lastDotSegment normalized)

/-- `_resolve_columns`: replace each name by the matched column's stored
name, keeping the literal name when the column is unknown. -/
def resolveColumns (table : Table) (columns : List Str) : List Str :=
  columns.map (fun cn =>
    match table.get_column cn with
    | some c => c.name
    | none => cn)

/-- `_foreign_key_exists`: an identical foreign key (same local columns,
target table, target columns) is already on the table. -/
def foreign_key_exists (table : Table) (candidate : ForeignKey) : Bool :=
  table.foreign_keys.any (fun fk =>
    fk.columns = candidate.columns ∧ fk.ref_table = candidate.ref_table ∧
    fk.ref_columns = candidate.ref_columns)

/-- One iteration of the `apply_foreign_key_config` loop. -/
def applyFkEntry (schema : Schema) (maps : List (Str × Str) × List (Str × Str))
    (entry : ForeignKeyConfigEntry) : Schema :=
  match lookupResolve maps entry.normalized_table with
  | none => schema
  | some tkey =>
    let table := (dget schema tkey).getD (stubTable tkey)
    let targetKey := lookupResolve maps entry.normalized_reference_table
    let refData :=
      match targetKey with
      | some tk =>
        let tt := (dget schema tk).getD (stubTable tk)
        (resolveColumns tt entry.reference_columns, tt.name)
      | none => (entry.reference_columns, entry.normalized_reference_table)
    let local_columns := resolveColumns table entry.local_columns
    let candidate : ForeignKey := ⟨local_columns, refData.2, refData.1, none⟩
    if foreign_key_exists table candidate then schema
    else dset schema tkey (table.add_foreign_key candidate)

/-- `apply_foreign_key_config(schema, entries)`: the lookup is built once
over the initial schema, then each entry is merged in order. -/
def apply_foreign_key_config (schema : Schema) (entries : List ForeignKeyConfigEntry) :
    Schema :=
  let maps := buildLookup schema
  entries.foldl (fun s e => applyFkEntry s maps e) schema

end FkConfig

/-- Maximum of a list of `Int` (Python `max(...)` over a nonempty list;
the empty case does not arise at call sites). -/
def listMaxD : List Int → Int
  | [] => 0
  | v :: vs => vs.foldl max v

section Layout

/-!
## Table layout (`src/erd_generator/layout.py`)

All geometry is exact: the Python code only ever adds and multiplies
configured integers (coerced to `float`), so coordinates are modelled as
`Int`.
-/

/-- `LayoutConfig` (the grid-layout fields from the source).
Modelled from the spec: `index_note_margin`, the configured margin
between a table box and its trailing note block, is referenced by the
renderers but its declaration is absent from the provided `layout.py`
snapshot. -/
structure LayoutConfig where
  per_row : Int := 3
  table_width : Int := 290
  row_height : Int := 30
  header_height : Int := 30
  padding_x : Int := 80
  padding_y : Int := 40
  gap_x : Int := 60
  gap_y : Int := 60
  index_note_margin : Int := 8
deriving DecidableEq, Repr

/-- `TableLayout`.
Modelled from the spec: the `note_lines` / `note_height` fields (the
optional trailing block of rendered index/primary-key annotation lines
and its height) are referenced by the diagram builders but absent from
the provided `layout.py` snapshot; the grid algorithm there constructs
layouts without notes, so they default to empty / zero. -/
structure TableLayout where
  table : Table
  x : Int
  y : Int
  width : Int
  height : Int
  note_lines : List Str := []
  note_height : Int := 0
deriving DecidableEq, Repr

/-- `calculate_table_height`. -/
def calculate_table_height (table : Table) (config : LayoutConfig) : Int :=
  let rows : Int := max 1 (table.columns.length : Int)
  config.header_height + rows * config.row_height

/-- One row of the placement loop: tables of the row at the current
`y`, x accumulating `table_width + gap_x` per column index. -/
def layoutRow (schema : Schema) (config : LayoutConfig) (names : List Str)
    (y : Int) : List TableLayout :=
  (List.range names.length).zip names |>.map (fun (colIndex, name) =>
    let table := (dget schema name).getD (stubTable name)
    { table := table
      x := config.padding_x + (colIndex : Int) * (config.table_width + config.gap_x)
      y := y
      width := config.table_width
      height := calculate_table_height table config })

/-- Split a list into consecutive rows of `per_row` elements (callers
pass `max(1, per_row)`, so the zero case is unreachable). -/
def chunkRows : Nat → List α → List (List α)
  | _, [] => []
  | 0, l@(_ :: _) => [l]
  | pr + 1, l@(_ :: _) => l.take (pr + 1) :: chunkRows (pr + 1) (l.drop (pr + 1))
termination_by _ l => l.length
decreasing_by simp_all [List.length_drop]; omega

/-- The row loop of `layout_tables`: place each row, advancing `y` by
the row's maximum table height plus the vertical gap. -/
def layoutRowsGo (schema : Schema) (config : LayoutConfig) :
    List (List Str) → Int → List TableLayout
  | [], _ => []
  | row :: rows, y =>
    let rowHeight := listMaxD (row.map (fun n =>
      calculate_table_height ((dget schema n).getD (stubTable n)) config))
    layoutRow schema config row y ++
      layoutRowsGo schema config rows (y + rowHeight + config.gap_y)

/-- `layout_tables(schema, config)`: sorted table names, chunked into
rows of `max(1, per_row)` tables, placed row by row from `padding_y`.
(The Python `max(...)` over a row's heights starts from the first
element of a nonempty list; rows are nonempty, and every height is
positive in the source's arithmetic, so the fold base 0 is inert.) -/
def layout_tables (schema : Schema) (config : LayoutConfig) : List TableLayout :=
  let table_names := sortStrs (dkeys schema)
  if table_names = [] then []
  else
    let pr := (max 1 config.per_row).toNat
    layoutRowsGo schema config (chunkRows pr table_names) config.padding_y

end Layout

section Drawio

/-!
## draw.io document builder (`src/erd_generator/drawio.py`)

The builder emits an XML tree; the model keeps exactly the observables
the document's structure determines and the claims mention: the id
counter, the per-table box ids (`table_id_map`), the per-column rendered
label-cell ids (`column_cell_ids`) and the reference edges with their
source/target anchors.  Geometry and style attributes of the emitted
cells carry no information beyond the layout values already modelled and
are omitted.
-/

/-- Decimal digits of a natural number (`str(n)` for the id suffix). -/
def natChars (n : Nat) : Str := Nat.toDigits 10 n

/-- `IdGenerator.next`: increment, then render `mx{value}`. -/
def mxId (v : Nat) : Str := 'm' :: 'x' :: natChars v

/-- Draw one id from the generator (counter starts at 2, so the first
id issued is `mx3`). -/
def nextId (c : Nat) : Str × Nat := (mxId (c + 1), c + 1)

/-- The id-bearing state accumulated by the table-rendering pass. -/
structure DrawioCells where
  counter : Nat
  table_id_map : List (Str × Str)
  column_cell_ids : List ((Str × Str) × Str)
deriving DecidableEq, Repr

/-- A reference edge (`mxCell` with `edge="1"`): its id and its
source/target anchor ids. -/
structure Edge where
  id : Str
  source : Str
  target : Str
deriving DecidableEq, Repr

/-- Rendering of one table group: ids are issued in source order (group,
table box, then per column a row, a flag cell and a label cell, then a
trailing note when the layout carries note lines); the box id and each
column's label-cell id are recorded. -/
def buildTableCells (acc : DrawioCells) (layout : TableLayout) : DrawioCells :=
  let c := (nextId acc.counter).2
  let (table_id, c) := nextId c
  let tmap := dset acc.table_id_map layout.table.name table_id
  let state := layout.table.columns.foldl (fun (st : Nat × List ((Str × Str) × Str)) column =>
      let c := (nextId st.1).2
      let c := (nextId c).2
      let (right_id, c) := nextId c
      (c, dset st.2 (layout.table.name, pyLower column.name) right_id))
    (c, acc.column_cell_ids)
  let c := if layout.note_lines ≠ [] then (nextId state.1).2 else state.1
  { counter := c, table_id_map := tmap, column_cell_ids := state.2 }

/-- The full table-rendering pass over the placed layouts. -/
def buildCellMaps (layouts : List TableLayout) : DrawioCells :=
  layouts.foldl buildTableCells ⟨2, [], []⟩

/-- Pairing of a foreign key's local columns with target columns:
positional when the counts agree, first-with-first when target columns
are present but counts differ, each-with-unresolved when no target
columns are given.  (With an empty local column list but target columns
present the source raises `IndexError`; such keys cannot arise from the
parser or the merge, and the model returns no pairs.) -/
def fkPairs (fk : ForeignKey) : List (Str × Option Str) :=
  match fk.ref_columns, fk.columns with
  | [], locals => locals.map (fun c => (c, none))
  | r :: rs, locals =>
    if locals.length = (r :: rs).length then locals.zip ((r :: rs).map some)
    else
      match locals with
      | l :: _ => [(l, some r)]
      | [] => []

/-- Target-anchor cell resolution for one pair, exactly as in the edge
loop: the explicit target column's cell; then, when that misses and the
target table exists, the first hit among the explicit target column, the
local column's name, and the sorted primary-key columns. -/
def resolveTargetCell (column_cell_ids : List ((Str × Str) × Str)) (schema : Schema)
    (refTable : Str) (refCol : Option Str) (localCol : Str) : Option Str :=
  let target_cell :=
    match refCol with
    | some rc => dget column_cell_ids (refTable, pyLower rc)
    | none => none
  if target_cell = none ∧ (dget schema refTable).isSome then
    let ref_table := (dget schema refTable).getD (stubTable refTable)
    let candidates :=
      (match refCol with | some rc => [pyLower rc] | none => []) ++
      [pyLower localCol] ++ (sortStrs ref_table.primary_key).map pyLower
    candidates.findSome? (fun cand => dget column_cell_ids (refTable, cand))
  else target_cell

/-- The edge-resolution pass: tables in sorted-name order, foreign keys
in declared order, one edge per pair; the source anchor is the local
column's label cell when rendered, else the table box; the target anchor
is the resolved cell when any, else the target table's box. -/
def buildEdges (schema : Schema) (cells : DrawioCells) : List Edge × Nat :=
  (sortStrs (dkeys schema)).foldl (fun (st : List Edge × Nat) table_name =>
    let table := (dget schema table_name).getD (stubTable table_name)
    match dget cells.table_id_map table.name with
    | none => st
    | some source_id =>
      table.foreign_keys.foldl (fun (st : List Edge × Nat) fk =>
        match dget cells.table_id_map fk.ref_table with
        | none => st
        | some target_table_id =>
          (fkPairs fk).foldl (fun (st : List Edge × Nat) pair =>
            let source_cell := dget cells.column_cell_ids (table.name, pyLower pair.1)
            let target_cell :=
              resolveTargetCell cells.column_cell_ids schema fk.ref_table pair.2 pair.1
            let (edge_id, c) := nextId st.2
            (st.1 ++ [⟨edge_id, source_cell.getD source_id, target_cell.getD target_table_id⟩],
             c)) st) st)
    ([], cells.counter)

/-- The observable outcome of `build_drawio`. -/
structure DrawioDoc where
  cells : DrawioCells
  edges : List Edge
deriving DecidableEq, Repr

/-- `build_drawio(schema, layout_config)`: place the tables, render
them, then resolve the reference edges. -/
def build_drawio (schema : Schema) (config : LayoutConfig) : DrawioDoc :=
  let layouts := layout_tables schema config
  let cells := buildCellMaps layouts
  ⟨cells, (buildEdges schema cells).1⟩

end Drawio

section PngRenderer

/-!
## PNG renderer (`src/erd_generator/png_renderer.py`)

Bytes are modelled as `Nat` values (every write is a value below 256 by
construction).  `zlib.compress(data, 9)` is external library code; the
encoder is parametric in a `compress : List Nat → List Nat` function, so
every property proved holds for the real compressor (theorems that need
the inverse take the round-trip as a hypothesis).  `int(round(v))` and
`math.ceil(v)` act on integer-valued floats throughout and are the
identity on the modelled `Int` values.
-/

/-- `RGB` dataclass. -/
structure RGB where
  r : Nat
  g : Nat
  b : Nat
deriving DecidableEq, Repr

/-- `BACKGROUND = RGB(255, 255, 255)`. -/
def BACKGROUND : RGB := ⟨255, 255, 255⟩

/-- `TABLE_FILL = RGB.from_hex("#dae8fc")`. -/
def TABLE_FILL : RGB := ⟨0xda, 0xe8, 0xfc⟩

/-- `TABLE_BORDER = RGB.from_hex("#6c8ebf")`. -/
def TABLE_BORDER : RGB := ⟨0x6c, 0x8e, 0xbf⟩

/-- `ROW_BORDER = RGB.from_hex("#999999")`. -/
def ROW_BORDER : RGB := ⟨0x99, 0x99, 0x99⟩

/-- `TEXT_COLOR = RGB(0, 0, 0)`. -/
def TEXT_COLOR : RGB := ⟨0, 0, 0⟩

/-- `HEADER_TEXT = RGB(40, 40, 40)`. -/
def HEADER_TEXT : RGB := ⟨40, 40, 40⟩

/-- `NOTE_TEXT = RGB(55, 55, 55)`. -/
def NOTE_TEXT : RGB := ⟨55, 55, 55⟩

/-- The 5×7 bitmap font (`FONT_MAP`); rows are `0`/`1` strings. -/
def FONT_MAP : List (Char × List Str) :=
  [('A', [strOf "01110", strOf "10001", strOf "10001", strOf "11111", strOf "10001", strOf "10001", strOf "10001"]),
   ('B', [strOf "11110", strOf "10001", strOf "11110", strOf "10001", strOf "10001", strOf "10001", strOf "11110"]),
   ('C', [strOf "01110", strOf "10001", strOf "10000", strOf "10000", strOf "10000", strOf "10001", strOf "01110"]),
   ('D', [strOf "11110", strOf "10001", strOf "10001", strOf "10001", strOf "10001", strOf "10001", strOf "11110"]),
   ('E', [strOf "11111", strOf "10000", strOf "11110", strOf "10000", strOf "10000", strOf "10000", strOf "11111"]),
   ('F', [strOf "11111", strOf "10000", strOf "11110", strOf "10000", strOf "10000", strOf "10000", strOf "10000"]),
   ('G', [strOf "01111", strOf "10000", strOf "10000", strOf "10111", strOf "10001", strOf "10001", strOf "01111"]),
   ('H', [strOf "10001", strOf "10001", strOf "11111", strOf "10001", strOf "10001", strOf "10001", strOf "10001"]),
   ('I', [strOf "11111", strOf "00100", strOf "00100", strOf "00100", strOf "00100", strOf "00100", strOf "11111"]),
   ('J', [strOf "11111", strOf "00010", strOf "00010", strOf "00010", strOf "10010", strOf "10010", strOf "01100"]),
   ('K', [strOf "10001", strOf "10010", strOf "11100", strOf "10100", strOf "11010", strOf "10001", strOf "10001"]),
   ('L', [strOf "10000", strOf "10000", strOf "10000", strOf "10000", strOf "10000", strOf "10000", strOf "11111"]),
   ('M', [strOf "10001", strOf "11011", strOf "10101", strOf "10101", strOf "10001", strOf "10001", strOf "10001"]),
   ('N', [strOf "10001", strOf "11001", strOf "10101", strOf "10011", strOf "10001", strOf "10001", strOf "10001"]),
   ('O', [strOf "01110", strOf "10001", strOf "10001", strOf "10001", strOf "10001", strOf "10001", strOf "01110"]),
   ('P', [strOf "11110", strOf "10001", strOf "10001", strOf "11110", strOf "10000", strOf "10000", strOf "10000"]),
   ('Q', [strOf "01110", strOf "10001", strOf "10001", strOf "10001", strOf "10101", strOf "10010", strOf "01101"]),
   ('R', [strOf "11110", strOf "10001", strOf "10001", strOf "11110", strOf "10100", strOf "10010", strOf "10001"]),
   ('S', [strOf "01111", strOf "10000", strOf "10000", strOf "01110", strOf "00001", strOf "00001", strOf "11110"]),
   ('T', [strOf "11111", strOf "00100", strOf "00100", strOf "00100", strOf "00100", strOf "00100", strOf "00100"]),
   ('U', [strOf "10001", strOf "10001", strOf "10001", strOf "10001", strOf "10001", strOf "10001", strOf "01110"]),
   ('V', [strOf "10001", strOf "10001", strOf "10001", strOf "10001", strOf "10001", strOf "01010", strOf "00100"]),
   ('W', [strOf "10001", strOf "10001", strOf "10001", strOf "10101", strOf "10101", strOf "10101", strOf "01010"]),
   ('X', [strOf "10001", strOf "10001", strOf "01010", strOf "00100", strOf "01010", strOf "10001", strOf "10001"]),
   ('Y', [strOf "10001", strOf "10001", strOf "01010", strOf "00100", strOf "00100", strOf "00100", strOf "00100"]),
   ('Z', [strOf "11111", strOf "00001", strOf "00010", strOf "00100", strOf "01000", strOf "10000", strOf "11111"]),
   ('0', [strOf "01110", strOf "10001", strOf "10011", strOf "10101", strOf "11001", strOf "10001", strOf "01110"]),
   ('1', [strOf "00100", strOf "01100", strOf "00100", strOf "00100", strOf "00100", strOf "00100", strOf "01110"]),
   ('2', [strOf "01110", strOf "10001", strOf "00001", strOf "00010", strOf "00100", strOf "01000", strOf "11111"]),
   ('3', [strOf "11110", strOf "00001", strOf "00001", strOf "00110", strOf "00001", strOf "00001", strOf "11110"]),
   ('4', [strOf "00010", strOf "00110", strOf "01010", strOf "10010", strOf "11111", strOf "00010", strOf "00010"]),
   ('5', [strOf "11111", strOf "10000", strOf "11110", strOf "00001", strOf "00001", strOf "10001", strOf "01110"]),
   ('6', [strOf "00110", strOf "01000", strOf "10000", strOf "11110", strOf "10001", strOf "10001", strOf "01110"]),
   ('7', [strOf "11111", strOf "00001", strOf "00010", strOf "00100", strOf "01000", strOf "01000", strOf "01000"]),
   ('8', [strOf "01110", strOf "10001", strOf "10001", strOf "01110", strOf "10001", strOf "10001", strOf "01110"]),
   ('9', [strOf "01110", strOf "10001", strOf "10001", strOf "01111", strOf "00001", strOf "00010", strOf "11100"]),
   (' ', List.replicate 7 (strOf "00000")),
   ('-', [strOf "00000", strOf "00000", strOf "00000", strOf "11111", strOf "00000", strOf "00000", strOf "00000"]),
   ('_', [strOf "00000", strOf "00000", strOf "00000", strOf "00000", strOf "00000", strOf "00000", strOf "11111"]),
   (':', [strOf "00000", strOf "00100", strOf "00000", strOf "00000", strOf "00000", strOf "00100", strOf "00000"]),
   ('.', [strOf "00000", strOf "00000", strOf "00000", strOf "00000", strOf "00000", strOf "00100", strOf "00000"]),
   (',', [strOf "00000", strOf "00000", strOf "00000", strOf "00000", strOf "00000", strOf "00100", strOf "01000"]),
   ('(', [strOf "00010", strOf "00100", strOf "01000", strOf "01000", strOf "01000", strOf "00100", strOf "00010"]),
   (')', [strOf "01000", strOf "00100", strOf "00010", strOf "00010", strOf "00010", strOf "00100", strOf "01000"]),
   ('/', [strOf "00001", strOf "00010", strOf "00100", strOf "01000", strOf "10000", strOf "00000", strOf "00000"]),
   ('\'', [strOf "00100", strOf "00100", strOf "00000", strOf "00000", strOf "00000", strOf "00000", strOf "00000"]),
   ('#', [strOf "01010", strOf "11111", strOf "01010", strOf "01010", strOf "11111", strOf "01010", strOf "01010"]),
   ('&', [strOf "01100", strOf "10000", strOf "10100", strOf "01000", strOf "10101", strOf "10010", strOf "01101"]),
   ('=', [strOf "00000", strOf "11111", strOf "00000", strOf "11111", strOf "00000", strOf "00000", strOf "00000"]),
   ('+', [strOf "00000", strOf "00100", strOf "00100", strOf "11111", strOf "00100", strOf "00100", strOf "00000"]),
   ('<', [strOf "00010", strOf "00100", strOf "01000", strOf "10000", strOf "01000", strOf "00100", strOf "00010"]),
   ('>', [strOf "01000", strOf "00100", strOf "00010", strOf "00001", strOf "00010", strOf "00100", strOf "01000"]),
   ('?', [strOf "01110", strOf "10001", strOf "00010", strOf "00100", strOf "00100", strOf "00000", strOf "00100"]),
   ('%', [strOf "10001", strOf "10010", strOf "00100", strOf "01000", strOf "10010", strOf "10001", strOf "00000"])]

/-- `DEFAULT_GLYPH = FONT_MAP["?"]` (the substitute for unknown
characters). -/
def DEFAULT_GLYPH : List Str := (dget FONT_MAP '?').getD []

/-- `Canvas`: a `width × height` RGB pixel buffer of `3` bytes per
pixel, row-major. -/
structure Canvas where
  width : Nat
  height : Nat
  pixels : List Nat
deriving DecidableEq, Repr

/-- `Canvas.__init__`: allocate and fill with the background color (the
source's per-triple fill loop writes exactly this buffer). -/
def canvasInit (width height : Nat) (background : RGB) : Canvas :=
  ⟨width, height, (List.replicate (width * height) [background.r, background.g, background.b]).flatten⟩

/-- Write one RGB triple at byte offset `idx`. -/
def setBytes3 (pixels : List Nat) (idx : Nat) (color : RGB) : List Nat :=
  ((pixels.set idx color.r).set (idx + 1) color.g).set (idx + 2) color.b

/-- `Canvas.set_pixel`: in-range writes only; anything outside
`[0, width) × [0, height)` is silently discarded. -/
def Canvas.set_pixel (c : Canvas) (x y : Int) (color : RGB) : Canvas :=
  if 0 ≤ x ∧ x < (c.width : Int) ∧ 0 ≤ y ∧ y < (c.height : Int) then
    { c with pixels := setBytes3 c.pixels ((y.toNat * c.width + x.toNat) * 3) color }
  else c

/-- `Canvas.fill_rect`: clamp the rectangle to the canvas, then write
every pixel of the clamped region (the source writes the three bytes of
each such pixel by direct indexing). -/
def Canvas.fill_rect (c : Canvas) (x0 y0 x1 y1 : Int) (color : RGB) : Canvas :=
  let cx0 := max 0 x0
  let cy0 := max 0 y0
  let cx1 := min (c.width : Int) x1
  let cy1 := min (c.height : Int) y1
  if cx0 ≥ cx1 ∨ cy0 ≥ cy1 then c
  else
    let xs := List.range' cx0.toNat (cx1 - cx0).toNat
    let ys := List.range' cy0.toNat (cy1 - cy0).toNat
    { c with pixels := ys.foldl (fun px y =>
        xs.foldl (fun px x => setBytes3 px ((y * c.width + x) * 3) color) px) c.pixels }

/-- `Canvas.draw_hline`: guarded by the row being in range; columns are
clamped and each pixel written through `set_pixel`. -/
def Canvas.draw_hline (c : Canvas) (x0 x1 : Int) (y : Int) (color : RGB) : Canvas :=
  if 0 ≤ y ∧ y < (c.height : Int) then
    let lo := max 0 x0
    let hi := min (c.width : Int) x1
    (List.range' lo.toNat (hi - lo).toNat).foldl
      (fun c (x : Nat) => c.set_pixel (x : Int) y color) c
  else c

/-- `Canvas.draw_vline`. -/
def Canvas.draw_vline (c : Canvas) (x : Int) (y0 y1 : Int) (color : RGB) : Canvas :=
  if 0 ≤ x ∧ x < (c.width : Int) then
    let lo := max 0 y0
    let hi := min (c.height : Int) y1
    (List.range' lo.toNat (hi - lo).toNat).foldl
      (fun c (y : Nat) => c.set_pixel x (y : Int) color) c
  else c

/-- `Canvas.draw_rect_outline`. -/
def Canvas.draw_rect_outline (c : Canvas) (x0 y0 x1 y1 : Int) (color : RGB) : Canvas :=
  let c := c.draw_hline x0 x1 y0 color
  let c := c.draw_hline x0 x1 (y1 - 1) color
  let c := c.draw_vline x0 y0 y1 color
  c.draw_vline (x1 - 1) y0 y1 color

/-- `Canvas._blit_glyph`: each `1` bit becomes a `scale × scale` block
of pixels (written through `set_pixel`). -/
def Canvas.blit_glyph (c : Canvas) (x y : Int) (glyph : List Str) (color : RGB)
    (scale : Nat) : Canvas :=
  ((List.range glyph.length).zip glyph).foldl (fun c rowPair =>
    ((List.range rowPair.2.length).zip rowPair.2).foldl (fun c colPair =>
      if colPair.2 = '1' then
        (List.range scale).foldl (fun c sy =>
          (List.range scale).foldl (fun c sx =>
            c.set_pixel (x + (colPair.1 : Int) * scale + sx)
                        (y + (rowPair.1 : Int) * scale + sy) color) c) c
      else c) c) c

/-- `str.splitlines()` for texts whose only line boundary is `\n`. -/
def pySplitLines (s : Str) : List Str :=
  if s.getLast? = some '\n' ∨ s = [] then (pySplitChar '\n' s).dropLast
  else pySplitChar '\n' s

/-- `Canvas.draw_text`: glyphs advance by `(FONT_WIDTH + 1) * scale`;
lines advance by `FONT_HEIGHT * scale + NOTE_LINE_SPACING`. -/
def Canvas.draw_text (c : Canvas) (x y : Int) (text : Str) (color : RGB)
    (scale : Nat := 2) : Canvas :=
  let line_height : Int := (7 * scale : Nat) + 4
  (((List.range (pySplitLines text).length).zip (pySplitLines text)).foldl
    (fun c linePair =>
      ((List.range linePair.2.length).zip linePair.2).foldl (fun c chPair =>
        let glyph := (dget FONT_MAP chPair.2).getD DEFAULT_GLYPH
        c.blit_glyph (x + (chPair.1 : Int) * ((5 + 1) * scale : Nat))
                     (y + (linePair.1 : Int) * line_height) glyph color scale) c) c)

end PngRenderer

section PngEncode

/-!
## PNG container encoding (`src/erd_generator/png_renderer.py`, continued)
-/

/-- ASCII/latin-1 bytes of a string (keyword and embedded-document
texts are ASCII). -/
def strToBytes (s : Str) : List Nat := s.map Char.toNat

/-- `n.to_bytes(4, "big")` (callers keep `n < 2^32`; the model reduces
each byte modulo 256). -/
def be4 (n : Nat) : List Nat :=
  [n / 2 ^ 24 % 256, n / 2 ^ 16 % 256, n / 2 ^ 8 % 256, n % 256]

/-- One bit of the CRC-32 update: shift right, conditionally folding in
the reversed polynomial `0xEDB88320` (the polynomial zlib uses). -/
def crcRound (c : Nat) : Nat :=
  if c % 2 = 1 then (c / 2) ^^^ 0xEDB88320 else c / 2

/-- One byte of the CRC-32 update: XOR into the low bits, then eight
bit rounds. -/
def crcByteStep (crc b : Nat) : Nat :=
  let c := crc ^^^ (b % 256)
  crcRound (crcRound (crcRound (crcRound (crcRound (crcRound (crcRound (crcRound c)))))))

/-- `zlib.crc32(data)`: initial and final complement around the byte
loop. -/
def crc32 (data : List Nat) : Nat :=
  (data.foldl crcByteStep 0xFFFFFFFF) ^^^ 0xFFFFFFFF

/-- `_chunk(tag, data)`: 4-byte big-endian payload length, tag, payload,
and the CRC-32 of tag plus payload. -/
def chunkBytes (tag data : List Nat) : List Nat :=
  be4 data.length ++ tag ++ data ++ be4 (crc32 (tag ++ data))

/-- The base64 alphabet. -/
def b64Table : Str := strOf "ABCDEFGHIJKLMNOPQRSTUVWXYZabcdefghijklmnopqrstuvwxyz0123456789+/"

/-- One base64 output byte for a 6-bit value. -/
def b64Char (i : Nat) : Nat := ((b64Table.get? i).getD 'A').toNat

/-- `base64.b64encode` on a byte list (`=` padding, code 61). -/
def b64encode : List Nat → List Nat
  | [] => []
  | [a] => [b64Char (a / 4), b64Char (a % 4 * 16), 61, 61]
  | [a, b] => [b64Char (a / 4), b64Char (a % 4 * 16 + b / 16), b64Char (b % 16 * 4), 61]
  | a :: b :: c :: rest =>
    [b64Char (a / 4), b64Char (a % 4 * 16 + b / 16), b64Char (b % 16 * 4 + c / 64),
     b64Char (c % 64)] ++ b64encode rest

/-- The data of an `iTXt` chunk (`_itxt_chunk`): keyword, NUL, the
compression flag, the compression method (0), empty language tag, NUL,
empty translated keyword, NUL, then the payload. -/
def itxtData (keyword : Str) (flag : Nat) (payload : List Nat) : List Nat :=
  strToBytes keyword ++ [0, flag, 0, 0, 0] ++ payload

/-- `b"\x89PNG\r\n\x1a\n"`. -/
def pngSignature : List Nat := [0x89, 0x50, 0x4E, 0x47, 0x0D, 0x0A, 0x1A, 0x0A]

/-- `IHDR` tag bytes. -/
def tagIHDR : List Nat := strToBytes (strOf "IHDR")

/-- `IDAT` tag bytes. -/
def tagIDAT : List Nat := strToBytes (strOf "IDAT")

/-- `IEND` tag bytes. -/
def tagIEND : List Nat := strToBytes (strOf "IEND")

/-- `iTXt` tag bytes. -/
def tagITXT : List Nat := strToBytes (strOf "iTXt")

/-- The filtered scanline stream of `save_png`: each scanline of
`width * 3` bytes prefixed with the filter-type byte 0. -/
def pngRawData (width height : Nat) (pixels : List Nat) : List Nat :=
  ((List.range height).map (fun y =>
    0 :: ((pixels.drop (y * (width * 3))).take (width * 3)))).flatten

/-- The (tag, payload) sequence `save_png` writes: the IHDR payload is
width, height (4-byte big-endian each), bit depth 8, color type 2
(truecolor), compression 0, filter 0, interlace 0; then, when an XML
document is embedded, a compressed `mxGraphModel` iTXt and a base64
`mxfile` iTXt; then one IDAT holding the compressed scanline stream; then
the empty IEND. -/
def savePngChunkSpecs (compress : List Nat → List Nat) (width height : Nat)
    (pixels : List Nat) (xmlOpt : Option Str) : List (List Nat × List Nat) :=
  let raw := pngRawData width height pixels
  let metadata : List (List Nat × List Nat) :=
    match xmlOpt with
    | some xml =>
      let xml_bytes := strToBytes xml
      [(tagITXT, itxtData (strOf "mxGraphModel") 1 (compress xml_bytes)),
       (tagITXT, itxtData (strOf "mxfile") 0 (b64encode (compress xml_bytes)))]
    | none => []
  [(tagIHDR, be4 width ++ be4 height ++ [8, 2, 0, 0, 0])] ++ metadata ++
    [(tagIDAT, compress raw), (tagIEND, [])]

/-- `save_png`: the signature followed by every chunk, each framed by
`_chunk`. -/
def save_png (compress : List Nat → List Nat) (width height : Nat)
    (pixels : List Nat) (xmlOpt : Option Str) : List Nat :=
  pngSignature ++
    ((savePngChunkSpecs compress width height pixels xmlOpt).map
      (fun td => chunkBytes td.1 td.2)).flatten

/-- `_compute_canvas_dimensions` (`SCALE = 2`). -/
def computeCanvasDimensions (layouts : List TableLayout) (config : LayoutConfig) :
    Nat × Nat :=
  match layouts with
  | [] =>
    let width := config.padding_x * 2 * 2
    let height := config.padding_y * 2 * 2
    ((max width 1).toNat, (max height 1).toNat)
  | _ :: _ =>
    let max_x := listMaxD (layouts.map (fun l => l.x + l.width))
    let max_y := listMaxD (layouts.map (fun l => l.y + l.height + l.note_height))
    let width := (max_x + config.padding_x) * 2
    let height := (max_y + config.padding_y) * 2
    ((max width 1).toNat, (max height 1).toNat)

/-- `_column_label`. -/
def columnLabel (column : Column) (show_types : Bool) : Str :=
  if show_types ∧ column.data_type ≠ [] then
    pyUpper column.name ++ strOf " (" ++ column.data_type ++ strOf ")"
  else pyUpper column.name

/-- One column row of `_render_table`'s column loop (`rowStart` is the
scaled `y + header_height`). -/
def renderTableColumn (x width left_width rowStart row_height : Int)
    (show_types : Bool) (canvas : Canvas) (idxCol : Nat × Column) : Canvas :=
  let row_top := rowStart + (idxCol.1 : Int) * row_height
  let canvas := canvas.draw_hline x (x + width) row_top ROW_BORDER
  let row_bottom := row_top + row_height
  let canvas := canvas.fill_rect x row_top (x + left_width) row_bottom TABLE_FILL
  let canvas := canvas.draw_vline (x + left_width) row_top row_bottom ROW_BORDER
  let canvas :=
    if idxCol.2.is_primary_key then
      canvas.draw_text (x + 6) (row_top + 8) (strOf "PK") TEXT_COLOR 2
    else canvas
  canvas.draw_text (x + left_width + 6) (row_top + 8)
    (columnLabel idxCol.2 show_types) TEXT_COLOR 2

/-- `_render_table` (`SCALE = 2`, `LEFT_CELL_WIDTH = 30`,
`TEXT_PADDING_X = 6`, `HEADER_PADDING_Y = 8`, `ROW_TEXT_PADDING_Y = 8`). -/
def renderTable (canvas : Canvas) (layout : TableLayout) (config : LayoutConfig)
    (show_types : Bool) : Canvas :=
  let table := layout.table
  let x := layout.x * 2
  let y := layout.y * 2
  let width := layout.width * 2
  let height := layout.height * 2
  let header_height := config.header_height * 2
  let row_height := config.row_height * 2
  let left_width : Int := 30 * 2
  let canvas := canvas.fill_rect x y (x + width) (y + height) TABLE_FILL
  let canvas := canvas.draw_rect_outline x y (x + width) (y + height) TABLE_BORDER
  let canvas := canvas.draw_hline x (x + width) (y + header_height) TABLE_BORDER
  let canvas := canvas.draw_text (x + 6) (y + 8) (pyUpper table.name) HEADER_TEXT 2
  let canvas := ((List.range table.columns.length).zip table.columns).foldl
    (renderTableColumn x width left_width (y + header_height) row_height show_types)
    canvas
  let canvas := canvas.draw_hline x (x + width) (y + height) ROW_BORDER
  if layout.note_lines ≠ [] then
    let note_text := pyJoinChar '\n' (layout.note_lines.map pyUpper)
    let note_y := (layout.y + layout.height + config.index_note_margin) * 2
    canvas.draw_text x note_y note_text NOTE_TEXT 2
  else canvas

/-- The rasterization part of `render_png`: place the tables, size the
canvas, render every table. -/
def renderCanvas (schema : Schema) (config : LayoutConfig) (show_types : Bool) :
    Canvas :=
  let layouts := layout_tables schema config
  let dims := computeCanvasDimensions layouts config
  layouts.foldl (fun c l => renderTable c l config show_types)
    (canvasInit dims.1 dims.2 BACKGROUND)

/-- `render_png`: rasterize, then encode (returns the written file's
bytes). -/
def render_png (schema : Schema) (compress : List Nat → List Nat)
    (config : LayoutConfig := {}) (show_types : Bool := false)
    (xmlOpt : Option Str := none) : List Nat :=
  let canvas := renderCanvas schema config show_types
  save_png compress canvas.width canvas.height canvas.pixels xmlOpt

/-- A parsed chunk of the container: tag, payload and stored CRC. -/
structure PngChunk where
  tag : List Nat
  payload : List Nat
  crc : Nat
deriving DecidableEq, Repr

/-- Big-endian value of a byte list. -/
def beVal (l : List Nat) : Nat := l.foldl (fun a b => a * 256 + b) 0

/-- Split a byte stream into its length-prefixed chunks: 4-byte length,
4-byte tag, payload, 4-byte CRC, repeated to the end (`none` on a
malformed tail).  This is the reader's view of the container, used to
state the framing properties. -/
def parseChunks (l : List Nat) : Option (List PngChunk) :=
  if l = [] then some []
  else
    let n := beVal (l.take 4)
    if _h : 12 + n ≤ l.length then
      match parseChunks (l.drop (12 + n)) with
      | none => none
      | some rest =>
        some (⟨(l.drop 4).take 4, (l.drop 8).take n, beVal ((l.drop (8 + n)).take 4)⟩ :: rest)
    else none
termination_by l.length
decreasing_by simp_all [List.length_drop]; omega

end PngEncode

section StatementDefs

/-!
## Definitions used by the theorem statements
-/

/-- Reference splitter following the specification's words for
`split_top_level_commas` on well-parenthesized input: depth counted in
`Int` without clamping, an item cut at every comma seen at depth zero,
segments kept raw (unstripped, empties included). -/
def specSplitGo : Str → Int → Str → List Str
  | [], _, buf => [buf.reverse]
  | c :: rest, d, buf =>
    let d' := if c = '(' then d + 1 else if c = ')' then d - 1 else d
    if c = ',' ∧ d' = 0 then buf.reverse :: specSplitGo rest d' []
    else specSplitGo rest d' (c :: buf)

/-- The raw top-level comma segments of a text (specification view). -/
def specTopSplit (text : Str) : List Str := specSplitGo text 0 []

/-- The running parenthesis depth starting from `d` never goes below
zero (the "well-parenthesized" hypothesis: every prefix closes at most
as many parentheses as it opens). -/
def parenNonneg : Str → Int → Bool
  | [], _ => true
  | c :: rest, d =>
    let d' := if c = '(' then d + 1 else if c = ')' then d - 1 else d
    (0 ≤ d') && parenNonneg rest d'

/-- The identity of a foreign key for duplicate detection: local
columns, target table, target columns. -/
def fkKey (fk : ForeignKey) : List Str × Str × List Str :=
  (fk.columns, fk.ref_table, fk.ref_columns)

/-- A table carries no two foreign keys with the same local columns,
target table and target columns. -/
def noDupFks (t : Table) : Prop := (t.foreign_keys.map fkKey).Nodup

instance (t : Table) : Decidable (noDupFks t) := by
  unfold noDupFks
  infer_instance

/-- The specification's per-segment normalization map: a quoted segment
keeps its exact inner text, any other segment is lower-cased. -/
def segNorm (p : Str) : Str := if isQuotedSeg p then innerSeg p else pyLower p

/-- The three bytes of pixel `(x, y)` of a canvas (row-major, 3 bytes
per pixel). -/
def getPixel (c : Canvas) (x y : Nat) : Option Nat × Option Nat × Option Nat :=
  ((c.pixels.get? ((y * c.width + x) * 3)),
   (c.pixels.get? ((y * c.width + x) * 3 + 1)),
   (c.pixels.get? ((y * c.width + x) * 3 + 2)))

/-- The row-structured view of the placement loop: one list of
geometries per placement row (`layout_tables` emits their
concatenation). -/
def layoutRowsList (schema : Schema) (config : LayoutConfig) :
    List (List Str) → Int → List (List TableLayout)
  | [], _ => []
  | row :: rows, y =>
    let rowHeight := listMaxD (row.map (fun n =>
      calculate_table_height ((dget schema n).getD (stubTable n)) config))
    layoutRow schema config row y ::
      layoutRowsList schema config rows (y + rowHeight + config.gap_y)

/-- The `customers` table of the spec's reference-edge scenario:
`customers(id)` with primary key `id`. -/
def customersTable : Table :=
  { name := strOf "customers",
    columns := [{ name := strOf "id", data_type := strOf "INT", is_primary_key := true }],
    primary_key := [strOf "id"] }

/-- The `orders` table of the scenario: `orders(customer_id)` with a
foreign key to `customers(id)`. -/
def ordersTable : Table :=
  { name := strOf "orders",
    columns := [{ name := strOf "customer_id", data_type := strOf "INT" }],
    foreign_keys := [⟨[strOf "customer_id"], strOf "customers", [strOf "id"], none⟩] }

/-- The two-table scenario schema. -/
def ordersSchema : Schema :=
  [(strOf "customers", customersTable), (strOf "orders", ordersTable)]

end StatementDefs

section DictLemmas

/-!
## Association-list dictionary lemmas
-/

theorem dget_mem [DecidableEq κ] {d : List (κ × α)} {k : κ} {v : α}
    (h : dget d k = some v) : (k, v) ∈ d := by
  induction d with
  | nil => simp [dget] at h
  | cons p rest ih =>
    obtain ⟨pk, pv⟩ := p
    by_cases hk : pk = k
    · subst hk
      simp [dget] at h
      simp [h]
    · simp [dget, hk] at h
      exact List.mem_cons_of_mem _ (ih h)

theorem mem_dset [DecidableEq κ] {d : List (κ × α)} {k : κ} {v : α} {p : κ × α}
    (h : p ∈ dset d k v) : p = (k, v) ∨ p ∈ d := by
  induction d with
  | nil => simp [dset] at h; simp [h]
  | cons q rest ih =>
    obtain ⟨qk, qv⟩ := q
    by_cases hk : qk = k
    · subst hk
      simp [dset] at h
      rcases h with h | h
      · exact Or.inl (by simp [h])
      · exact Or.inr (List.mem_cons_of_mem _ h)
    · simp [dset, hk] at h
      rcases h with h | h
      · exact Or.inr (by simp [h])
      · rcases ih h with h' | h'
        · exact Or.inl h'
        · exact Or.inr (List.mem_cons_of_mem _ h')

theorem dkeys_dset [DecidableEq κ] (d : List (κ × α)) (k : κ) (v : α)
    (h : k ∈ dkeys d) : dkeys (dset d k v) = dkeys d := by
  induction d with
  | nil => simp [dkeys] at h
  | cons q rest ih =>
    obtain ⟨qk, qv⟩ := q
    by_cases hk : qk = k
    · subst hk; simp [dset, dkeys]
    · have h' : k ∈ dkeys rest := by
        rcases (by simpa [dkeys] using h) with h0 | h0
        · exact absurd h0.symm hk
        · simpa [dkeys] using h0
      simp only [dset, hk, if_false, dkeys, List.map_cons]
      simpa [dkeys] using congrArg (qk :: ·) (ih h')

theorem dget_dset_self [DecidableEq κ] (d : List (κ × α)) (k : κ) (v : α) :
    dget (dset d k v) k = some v := by
  induction d with
  | nil => simp [dset, dget]
  | cons q rest ih =>
    obtain ⟨qk, qv⟩ := q
    by_cases hk : qk = k
    · subst hk; simp [dset, dget]
    · simp [dset, dget, hk, ih]

theorem dget_dset_ne [DecidableEq κ] (d : List (κ × α)) (k k' : κ) (v : α)
    (h : k ≠ k') : dget (dset d k v) k' = dget d k' := by
  induction d with
  | nil => simp [dset, dget, h]
  | cons q rest ih =>
    obtain ⟨qk, qv⟩ := q
    by_cases hk : qk = k
    · subst hk; simp [dset, dget, h]
    · simp [dset, dget, hk, ih]

end DictLemmas

section ClaimC1

/-!
## C1: duplicate foreign keys
-/

theorem add_foreign_key_unnamed (t : Table) (fk : ForeignKey) (h : fk.name = none) :
    t.add_foreign_key fk = { t with foreign_keys := t.foreign_keys ++ [fk] } := by
  unfold Table.add_foreign_key
  simp [h]

theorem foreign_key_exists_iff (t : Table) (cand : ForeignKey) :
    foreign_key_exists t cand = true ↔ fkKey cand ∈ t.foreign_keys.map fkKey := by
  simp only [foreign_key_exists, List.any_eq_true, decide_eq_true_eq, List.mem_map,
    fkKey, Prod.mk.injEq]

theorem noDupFks_add (t : Table) (cand : ForeignKey) (hc : cand.name = none)
    (hnd : noDupFks t) (hnx : ¬ foreign_key_exists t cand = true) :
    noDupFks (t.add_foreign_key cand) := by
  rw [add_foreign_key_unnamed _ _ hc]
  simp only [noDupFks, List.map_append, List.map_cons, List.map_nil]
  rw [List.nodup_append]
  refine ⟨hnd, List.nodup_singleton _, ?_⟩
  intro a ha hb
  simp only [List.mem_singleton] at hb
  exact hnx ((foreign_key_exists_iff _ _).mpr (hb ▸ ha))

theorem applyFkEntry_preserves_noDup (schema : Schema)
    (maps : List (Str × Str) × List (Str × Str)) (entry : ForeignKeyConfigEntry)
    (h : ∀ p ∈ schema, noDupFks p.2) :
    ∀ p ∈ applyFkEntry schema maps entry, noDupFks p.2 := by
  intro p hp
  simp only [applyFkEntry] at hp
  split at hp
  · exact h p hp
  · rename_i tkey heq
    split at hp
    · exact h p hp
    · rename_i hnotex
      rcases mem_dset hp with hpe | hpe
      · have hnd : noDupFks ((dget schema tkey).getD (stubTable tkey)) := by
          cases hg : dget schema tkey with
          | none => simp [noDupFks, stubTable]
          | some tb => simpa using h (tkey, tb) (dget_mem hg)
        subst hpe
        exact noDupFks_add _ _ rfl hnd hnotex
      · exact h p hpe

/-- C1, counterexample: the parser itself appends duplicate foreign
keys.  A `CREATE TABLE` whose body carries both an inline
`REFERENCES u(b)` on column `a` and the table-level
`FOREIGN KEY (a) REFERENCES u (b)` yields a table `t` whose
`foreign_keys` list holds two entries with equal local columns, equal
target table and equal target columns — even after the (empty) override
merge. -/
theorem c1_parser_duplicate_foreign_keys :
    (dget (apply_foreign_key_config (parse_schema_from_sql
        (strOf "CREATE TABLE t (a INT REFERENCES u(b), FOREIGN KEY (a) REFERENCES u (b));")
        []) []) (strOf "t")).map Table.foreign_keys =
      some [⟨[strOf "a"], strOf "u", [strOf "b"], none⟩,
            ⟨[strOf "a"], strOf "u", [strOf "b"], none⟩] ∧
    ¬ ([(⟨[strOf "a"], strOf "u", [strOf "b"], none⟩ : ForeignKey),
        ⟨[strOf "a"], strOf "u", [strOf "b"], none⟩].map fkKey).Nodup := by
  constructor
  · decide
  · decide

/-- C1, amended: the override merge introduces no duplicate foreign
key.  `apply_foreign_key_config` inserts an entry only when no foreign
key with the same local column sequence, target table and target column
sequence is already on the table, so every table that is
duplicate-free before the merge is duplicate-free after it.  (The
parser gives no such guarantee, see the counterexample.) -/
theorem c1_merge_preserves_no_duplicates (schema : Schema)
    (entries : List ForeignKeyConfigEntry)
    (h : ∀ p ∈ schema, noDupFks p.2) :
    ∀ p ∈ apply_foreign_key_config schema entries, noDupFks p.2 := by
  unfold apply_foreign_key_config
  generalize buildLookup schema = maps
  induction entries generalizing schema with
  | nil => simp only [List.foldl_nil]; exact h
  | cons e es ih =>
    simp only [List.foldl_cons]
    exact ih _ (applyFkEntry_preserves_noDup _ _ _ h)

/-- C1 witness: a concrete merge of one new foreign key into a
one-table schema stays duplicate-free. -/
theorem c1_merge_preserves_no_duplicates_witness :
    let tW : Table :=
      { name := strOf "t", columns := [{ name := strOf "a" }],
        foreign_keys := [⟨[strOf "a"], strOf "u", [strOf "b"], none⟩] }
    let sW : Schema := [(strOf "t", tW)]
    let eW : List ForeignKeyConfigEntry :=
      [⟨strOf "t", strOf "t", [strOf "a"], strOf "v", strOf "v", [strOf "c"]⟩]
    (∀ p ∈ sW, noDupFks p.2) ∧ ∀ p ∈ apply_foreign_key_config sW eW, noDupFks p.2 :=
  ⟨by decide, c1_merge_preserves_no_duplicates _ _ (by decide)⟩

end ClaimC1

section ClaimC9

/-- C9: `CREATE TABLE t (id INT PRIMARY KEY, name TEXT);` parsed into
the empty schema yields exactly the table `t` with columns `[id, name]`
in order, primary-key set `{id}`, `id` flagged as primary key (and
`name` not), types `INT` / `TEXT`, and nothing else. -/
theorem c9_create_table_example :
    parse_schema_from_sql (strOf "CREATE TABLE t (id INT PRIMARY KEY, name TEXT);") [] =
      [(strOf "t",
        { name := strOf "t",
          columns :=
            [{ name := strOf "id", data_type := strOf "INT", nullable := true,
               is_primary_key := true },
             { name := strOf "name", data_type := strOf "TEXT", nullable := true,
               is_primary_key := false }],
          primary_key := [strOf "id"] })] := by
  decide

end ClaimC9

section ClaimC8

/-!
## C8: the depth-tracking comma splitter
-/

theorem splitCommasGo_spec (text : Str) : ∀ (d : Int) (buf : Str), 0 ≤ d →
    parenNonneg text d = true →
    splitCommasGo text d.toNat buf =
      ((specSplitGo text d buf).map pyStrip).filter (fun p => decide (p ≠ [])) := by
  induction text with
  | nil =>
    intro d buf _ _
    simp only [splitCommasGo, specSplitGo, List.map_cons, List.map_nil,
      List.filter_cons, List.filter_nil]
    by_cases h : pyStrip buf.reverse = [] <;> simp [h]
  | cons c rest ih =>
    intro d buf hd hnn
    simp only [parenNonneg, Bool.and_eq_true, decide_eq_true_eq] at hnn
    obtain ⟨hd', hnn'⟩ := hnn
    simp only [splitCommasGo, specSplitGo]
    have htn : (if c = '(' then d.toNat + 1 else if c = ')' then d.toNat - 1 else d.toNat) =
        (if c = '(' then d + 1 else if c = ')' then d - 1 else d).toNat := by
      by_cases h1 : c = '(' <;> by_cases h2 : c = ')' <;> simp [h1, h2] <;> omega
    rw [htn]
    have hcond : ((c = ',' ∧ (if c = '(' then d + 1 else if c = ')' then d - 1 else d).toNat = 0) ↔
        (c = ',' ∧ (if c = '(' then d + 1 else if c = ')' then d - 1 else d) = 0)) := by
      constructor
      · rintro ⟨h1, h2⟩; exact ⟨h1, by omega⟩
      · rintro ⟨h1, h2⟩; exact ⟨h1, by omega⟩
    by_cases hcomma : c = ',' ∧ (if c = '(' then d + 1 else if c = ')' then d - 1 else d) = 0
    · rw [if_pos (hcond.mpr hcomma), if_pos hcomma]
      have ihh := ih _ [] hd' hnn'
      rw [List.map_cons, List.filter_cons]
      by_cases hpart : pyStrip buf.reverse = []
      · rw [if_pos hpart, ihh, hpart]
        simp
      · rw [if_neg hpart, ihh]
        simp [hpart]
    · rw [if_neg (fun h => hcomma (hcond.mp h)), if_neg hcomma]
      exact ih _ (c :: buf) hd' hnn'

/-- C8: `split_top_level_commas` tracks parenthesis depth (clamped at
zero) and splits only at depth-0 commas.  Concretely
`split("a(1,2), b") = ["a(1,2)", "b"]`; and on every well-parenthesized
input (no prefix closes more than it opens) the result equals the text
cut exactly at the commas whose surrounding unclamped parenthesis depth
is zero — so no comma enclosed in balanced parentheses, at any nesting
depth, is ever a split point — with each piece stripped and empty pieces
dropped. -/
theorem c8_split_top_level_commas :
    split_top_level_commas (strOf "a(1,2), b") = [strOf "a(1,2)", strOf "b"] ∧
    ∀ text : Str, parenNonneg text 0 = true →
      split_top_level_commas text =
        ((specTopSplit text).map pyStrip).filter (fun p => decide (p ≠ [])) := by
  constructor
  · decide
  · intro text h
    unfold split_top_level_commas specTopSplit
    have h0 : (0 : Nat) = (0 : Int).toNat := rfl
    rw [h0]
    exact splitCommasGo_spec text 0 [] le_rfl h

/-- C8 witness: the universal half applied to the concrete example
text. -/
theorem c8_split_top_level_commas_witness :
    parenNonneg (strOf "a(1,2), b") 0 = true ∧
    split_top_level_commas (strOf "a(1,2), b") =
      ((specTopSplit (strOf "a(1,2), b")).map pyStrip).filter (fun p => decide (p ≠ [])) :=
  ⟨by decide, c8_split_top_level_commas.2 _ (by decide)⟩

end ClaimC8

section ClaimC3

/-!
## C3: identifier normalization and column identity
-/

theorem pyLstrip_eq_self {s : Str} (h : ∀ c ∈ s, ¬ isPyWs c = true) :
    pyLstrip s = s := by
  cases s with
  | nil => rfl
  | cons c r =>
    unfold pyLstrip
    rw [List.dropWhile_cons]
    simp [h c (List.mem_cons_self c r)]

theorem pyStrip_eq_self {s : Str} (h : ∀ c ∈ s, ¬ isPyWs c = true) :
    pyStrip s = s := by
  unfold pyStrip
  rw [pyLstrip_eq_self (fun c hc => h c (List.mem_reverse.mp hc)),
    List.reverse_reverse, pyLstrip_eq_self h]

theorem pySplitChar_no_sep {sep : Char} {s : Str} (h : sep ∉ s) :
    pySplitChar sep s = [s] := by
  induction s with
  | nil => rfl
  | cons c r ih =>
    have hc : ¬ c = sep := fun he => h (he ▸ List.mem_cons_self c r)
    have hr : sep ∉ r := fun hm => h (List.mem_cons_of_mem c hm)
    simp only [pySplitChar, ih hr, if_neg hc]

theorem pySplitChar_append_sep {sep : Char} {p : Str} (l : Str) (h : sep ∉ p) :
    pySplitChar sep (p ++ sep :: l) = p :: pySplitChar sep l := by
  induction p with
  | nil => simp [pySplitChar]
  | cons c p' ih =>
    have hc : ¬ c = sep := fun he => h (he ▸ List.mem_cons_self c p')
    have hp : sep ∉ p' := fun hm => h (List.mem_cons_of_mem c hm)
    have hstep : pySplitChar sep ((c :: p') ++ sep :: l) =
        (match pySplitChar sep (p' ++ sep :: l) with
         | [] => [[c]]
         | t :: ts => (c :: t) :: ts) := by
      simp only [List.cons_append, pySplitChar, if_neg hc]
      rfl
    rw [hstep, ih hp]

theorem pySplitChar_join {sep : Char} {parts : List Str} (hne : parts ≠ [])
    (h : ∀ p ∈ parts, sep ∉ p) :
    pySplitChar sep (pyJoinChar sep parts) = parts := by
  induction parts with
  | nil => exact absurd rfl hne
  | cons p rest ih =>
    cases rest with
    | nil => exact pySplitChar_no_sep (h p (List.mem_cons_self p []))
    | cons q rest' =>
      have hj : pyJoinChar sep (p :: q :: rest') = p ++ sep :: pyJoinChar sep (q :: rest') := rfl
      rw [hj, pySplitChar_append_sep _ (h p (List.mem_cons_self p _)),
        ih (by simp) (fun r hr => h r (List.mem_cons_of_mem p hr))]

theorem mem_pyJoinChar {sep : Char} {parts : List Str} {c : Char}
    (h : c ∈ pyJoinChar sep parts) : c = sep ∨ ∃ p ∈ parts, c ∈ p := by
  induction parts with
  | nil => simp [pyJoinChar] at h
  | cons p rest ih =>
    cases rest with
    | nil =>
      simp only [pyJoinChar] at h
      exact Or.inr ⟨p, List.mem_cons_self p [], h⟩
    | cons q rest' =>
      have hj : pyJoinChar sep (p :: q :: rest') = p ++ sep :: pyJoinChar sep (q :: rest') := rfl
      rw [hj] at h
      rcases List.mem_append.mp h with h1 | h1
      · exact Or.inr ⟨p, List.mem_cons_self p _, h1⟩
      · rcases List.mem_cons.mp h1 with h2 | h2
        · exact Or.inl h2
        · rcases ih h2 with h3 | ⟨r, hr, hc⟩
          · exact Or.inl h3
          · exact Or.inr ⟨r, List.mem_cons_of_mem p hr, hc⟩

theorem pyJoinChar_eq_nil {sep : Char} {parts : List Str} (hne : parts ≠ [])
    (h : pyJoinChar sep parts = []) : parts = [[]] := by
  cases parts with
  | nil => exact absurd rfl hne
  | cons p rest =>
    cases rest with
    | nil => simp only [pyJoinChar] at h; rw [h]
    | cons q rest' =>
      have hj : pyJoinChar sep (p :: q :: rest') = p ++ sep :: pyJoinChar sep (q :: rest') := rfl
      rw [hj] at h
      exact absurd h (by simp)

/-- C3, counterexample: two identifiers whose normalized forms differ
(`"ID"` quoted normalizes to `ID`, bare `id` to `id`) are nevertheless
resolved to the same column by `Table.get_column` — and the lookup
actually succeeds — refuting "two identifiers denote the same entity
exactly when their normalized forms are equal". -/
theorem c3_counterexample :
    let tbl : Table := { name := strOf "t", columns := [{ name := strOf "id" }] }
    (tbl.get_column (normalize_identifier (strOf "\"ID\"")) =
        tbl.get_column (normalize_identifier (strOf "id")) ∧
      tbl.get_column (normalize_identifier (strOf "id")) ≠ none) ∧
    normalize_identifier (strOf "\"ID\"") ≠ normalize_identifier (strOf "id") := by
  decide

/-- C3, amended: `normalize_identifier` does normalize a dot-qualified
identifier segment by segment — on any nonempty dot-joined sequence of
whitespace-free, dot-free segments, a segment that starts and ends with
a double quote maps to its exact inner text and any other segment to
its lower-casing; but two identifiers denote the same column as decided
by `Table.get_column` exactly when their lower-cased forms are equal
(`get_column` compares lower-cased names), not exactly when their
normalized forms are equal. -/
theorem c3_normalize_segments_and_lookup :
    (∀ parts : List Str, parts ≠ [] →
       (∀ p ∈ parts, ∀ c ∈ p, ¬ isPyWs c = true ∧ c ≠ '.') →
       normalize_identifier (pyJoinChar '.' parts) = pyJoinChar '.' (parts.map segNorm)) ∧
    (∀ s t : Str,
       (∀ tbl : Table, tbl.get_column s = tbl.get_column t) ↔ pyLower s = pyLower t) := by
  constructor
  · intro parts hne hch
    have hstrip : pyStrip (pyJoinChar '.' parts) = pyJoinChar '.' parts := by
      refine pyStrip_eq_self (fun c hc => ?_)
      rcases mem_pyJoinChar hc with h1 | ⟨p, hp, hcp⟩
      · subst h1; decide
      · exact (hch p hp c hcp).1
    simp only [normalize_identifier, hstrip]
    by_cases hj : pyJoinChar '.' parts = []
    · rw [if_pos hj, pyJoinChar_eq_nil hne hj]
      rfl
    · rw [if_neg hj,
        pySplitChar_join hne (fun p hp hcp => (hch p hp '.' hcp).2 rfl)]
      congr 1
      refine List.map_congr_left (fun p hp => ?_)
      rw [pyStrip_eq_self (fun c hc => (hch p hp c hc).1)]
      rfl
  · intro s t
    constructor
    · intro h
      by_contra hne
      have h1 := h { name := s, columns := [{ name := s }] }
      have e1 : Table.get_column { name := s, columns := [{ name := s }] } s =
          some { name := s } := by
        simp [Table.get_column]
      have e2 : Table.get_column { name := s, columns := [{ name := s }] } t =
          none := by
        simp [Table.get_column, hne]
      rw [e1, e2] at h1
      exact Option.noConfusion h1
    · intro h tbl
      unfold Table.get_column
      rw [h]

/-- C3 witness: the segment characterization applied to the concrete
identifier `Foo."Bar"`. -/
theorem c3_normalize_segments_witness :
    (([strOf "Foo", strOf "\"Bar\""] : List Str) ≠ []) ∧
    normalize_identifier (pyJoinChar '.' [strOf "Foo", strOf "\"Bar\""]) =
      pyJoinChar '.' ([strOf "Foo", strOf "\"Bar\""].map segNorm) :=
  ⟨by decide, c3_normalize_segments_and_lookup.1 _ (by decide) (by decide)⟩

end ClaimC3

section ClaimC2

/-!
## C2: in-place table redeclaration
-/

theorem parse_column_definition_frame (item : Str) (t : Table) :
    (parse_column_definition item t).name = t.name ∧
    (parse_column_definition item t).indexes = t.indexes ∧
    (parse_column_definition item t).constraint_types = t.constraint_types ∧
    (parse_column_definition item t).primary_key_name = t.primary_key_name := by
  simp only [parse_column_definition]
  repeat' split
  all_goals simp

theorem parse_table_constraint_frame (item : Str) (t : Table) :
    (parse_table_constraint item t).name = t.name ∧
    (parse_table_constraint item t).indexes = t.indexes ∧
    (parse_table_constraint item t).constraint_types = t.constraint_types ∧
    (parse_table_constraint item t).primary_key_name = t.primary_key_name := by
  simp only [parse_table_constraint]
  repeat' split
  all_goals simp

theorem parse_column_definition_core (item : Str) (t₁ t₂ : Table)
    (h1 : t₁.columns = t₂.columns) (h2 : t₁.primary_key = t₂.primary_key)
    (h3 : t₁.foreign_keys = t₂.foreign_keys) :
    (parse_column_definition item t₁).columns = (parse_column_definition item t₂).columns ∧
    (parse_column_definition item t₁).primary_key =
      (parse_column_definition item t₂).primary_key ∧
    (parse_column_definition item t₁).foreign_keys =
      (parse_column_definition item t₂).foreign_keys := by
  simp only [parse_column_definition]
  repeat' split
  all_goals simp [h1, h2, h3]

theorem parse_table_constraint_core (item : Str) (t₁ t₂ : Table)
    (h1 : t₁.columns = t₂.columns) (h2 : t₁.primary_key = t₂.primary_key)
    (h3 : t₁.foreign_keys = t₂.foreign_keys) :
    (parse_table_constraint item t₁).columns = (parse_table_constraint item t₂).columns ∧
    (parse_table_constraint item t₁).primary_key =
      (parse_table_constraint item t₂).primary_key ∧
    (parse_table_constraint item t₁).foreign_keys =
      (parse_table_constraint item t₂).foreign_keys := by
  simp only [parse_table_constraint]
  repeat' split
  all_goals simp [h1, h2, h3]

theorem foldl_parse_frame (f : Str → Table → Table)
    (hf : ∀ i t, (f i t).name = t.name ∧ (f i t).indexes = t.indexes ∧
      (f i t).constraint_types = t.constraint_types ∧
      (f i t).primary_key_name = t.primary_key_name)
    (items : List Str) : ∀ t : Table,
    (items.foldl (fun x i => f i x) t).name = t.name ∧
    (items.foldl (fun x i => f i x) t).indexes = t.indexes ∧
    (items.foldl (fun x i => f i x) t).constraint_types = t.constraint_types ∧
    (items.foldl (fun x i => f i x) t).primary_key_name = t.primary_key_name := by
  induction items with
  | nil => intro t; simp
  | cons i rest ih =>
    intro t
    simp only [List.foldl_cons]
    obtain ⟨a1, a2, a3, a4⟩ := ih (f i t)
    obtain ⟨b1, b2, b3, b4⟩ := hf i t
    exact ⟨a1.trans b1, a2.trans b2, a3.trans b3, a4.trans b4⟩

theorem foldl_parse_core (f : Str → Table → Table)
    (hf : ∀ i t₁ t₂, t₁.columns = t₂.columns → t₁.primary_key = t₂.primary_key →
      t₁.foreign_keys = t₂.foreign_keys →
      (f i t₁).columns = (f i t₂).columns ∧ (f i t₁).primary_key = (f i t₂).primary_key ∧
      (f i t₁).foreign_keys = (f i t₂).foreign_keys)
    (items : List Str) : ∀ t₁ t₂ : Table,
    t₁.columns = t₂.columns → t₁.primary_key = t₂.primary_key →
    t₁.foreign_keys = t₂.foreign_keys →
    (items.foldl (fun x i => f i x) t₁).columns =
      (items.foldl (fun x i => f i x) t₂).columns ∧
    (items.foldl (fun x i => f i x) t₁).primary_key =
      (items.foldl (fun x i => f i x) t₂).primary_key ∧
    (items.foldl (fun x i => f i x) t₁).foreign_keys =
      (items.foldl (fun x i => f i x) t₂).foreign_keys := by
  induction items with
  | nil => intro t₁ t₂ h1 h2 h3; exact ⟨h1, h2, h3⟩
  | cons i rest ih =>
    intro t₁ t₂ h1 h2 h3
    simp only [List.foldl_cons]
    obtain ⟨b1, b2, b3⟩ := hf i t₁ t₂ h1 h2 h3
    exact ih (f i t₁) (f i t₂) b1 b2 b3

theorem run_cleared_eq (items : List Str) (tbl : Table) (t : Str) :
    (items.foldl (fun x i => parse_table_constraint i x)
      (items.foldl (fun x i => parse_column_definition i x)
        { tbl with columns := [], primary_key := [], foreign_keys := [] })) =
    { tbl with
      columns := (items.foldl (fun x i => parse_table_constraint i x)
          (items.foldl (fun x i => parse_column_definition i x) (stubTable t))).columns,
      primary_key := (items.foldl (fun x i => parse_table_constraint i x)
          (items.foldl (fun x i => parse_column_definition i x) (stubTable t))).primary_key,
      foreign_keys := (items.foldl (fun x i => parse_table_constraint i x)
          (items.foldl (fun x i => parse_column_definition i x) (stubTable t))).foreign_keys } := by
  have hframe1 := foldl_parse_frame _ parse_column_definition_frame items
    { tbl with columns := [], primary_key := [], foreign_keys := [] }
  have hframe2 := foldl_parse_frame _ parse_table_constraint_frame items
    (items.foldl (fun x i => parse_column_definition i x)
      { tbl with columns := [], primary_key := [], foreign_keys := [] })
  have hcore1 := foldl_parse_core _ parse_column_definition_core items
    { tbl with columns := [], primary_key := [], foreign_keys := [] } (stubTable t)
    rfl rfl rfl
  have hcore2 := foldl_parse_core _ parse_table_constraint_core items _ _
    hcore1.1 hcore1.2.1 hcore1.2.2
  have heta : (items.foldl (fun x i => parse_table_constraint i x)
      (items.foldl (fun x i => parse_column_definition i x)
        { tbl with columns := [], primary_key := [], foreign_keys := [] })) =
      ⟨(items.foldl (fun x i => parse_table_constraint i x)
          (items.foldl (fun x i => parse_column_definition i x)
            { tbl with columns := [], primary_key := [], foreign_keys := [] })).name,
       (items.foldl (fun x i => parse_table_constraint i x)
          (items.foldl (fun x i => parse_column_definition i x)
            { tbl with columns := [], primary_key := [], foreign_keys := [] })).columns,
       (items.foldl (fun x i => parse_table_constraint i x)
          (items.foldl (fun x i => parse_column_definition i x)
            { tbl with columns := [], primary_key := [], foreign_keys := [] })).primary_key,
       (items.foldl (fun x i => parse_table_constraint i x)
          (items.foldl (fun x i => parse_column_definition i x)
            { tbl with columns := [], primary_key := [], foreign_keys := [] })).foreign_keys,
       (items.foldl (fun x i => parse_table_constraint i x)
          (items.foldl (fun x i => parse_column_definition i x)
            { tbl with columns := [], primary_key := [], foreign_keys := [] })).indexes,
       (items.foldl (fun x i => parse_table_constraint i x)
          (items.foldl (fun x i => parse_column_definition i x)
            { tbl with columns := [], primary_key := [], foreign_keys := [] })).constraint_types,
       (items.foldl (fun x i => parse_table_constraint i x)
          (items.foldl (fun x i => parse_column_definition i x)
            { tbl with columns := [], primary_key := [], foreign_keys := [] })).primary_key_name⟩ := rfl
  rw [heta, hcore2.1, hcore2.2.1, hcore2.2.2,
    hframe2.1.trans hframe1.1, hframe2.2.1.trans hframe1.2.1,
    hframe2.2.2.1.trans hframe1.2.2.1, hframe2.2.2.2.trans hframe1.2.2.2]

/-- C2: redeclaring an existing table via `parse_create_table` updates
the entry in place.  When the text holds exactly one `CREATE TABLE`
match for an already-present table `t`, the schema's key sequence is
unchanged (the entry keeps its position; no rebinding happens) and the
entry's table keeps its `indexes`, `constraint_types` and
`primary_key_name` while its `columns`, `primary_key` and
`foreign_keys` are exactly those parsed from the new body into a fresh
stub. -/
theorem c2_redeclare_replaces_in_place (sql : Str) (schema : Schema)
    (rawName body t : Str) (tbl : Table)
    (hscan : scanCreate sql = [(rawName, body)])
    (hnorm : normalize_identifier rawName = t)
    (hget : dget schema t = some tbl) :
    let items := split_top_level_commas body
    let fresh := items.foldl (fun x i => parse_table_constraint i x)
        (items.foldl (fun x i => parse_column_definition i x) (stubTable t))
    parse_create_table sql schema =
      dset schema t
        { tbl with columns := fresh.columns, primary_key := fresh.primary_key,
                   foreign_keys := fresh.foreign_keys } ∧
    dkeys (parse_create_table sql schema) = dkeys schema := by
  intro items fresh
  have hmem : t ∈ dkeys schema := by
    have := dget_mem hget
    exact List.mem_map_of_mem Prod.fst this
  have hstep : parse_create_table sql schema = processCreateMatch schema rawName body := by
    simp [parse_create_table, hscan]
  have hproc : processCreateMatch schema rawName body =
      dset schema t
        { tbl with columns := fresh.columns, primary_key := fresh.primary_key,
                   foreign_keys := fresh.foreign_keys } := by
    simp only [processCreateMatch, hnorm, hget, Option.getD_some]
    congr 1
    exact run_cleared_eq (split_top_level_commas body) tbl t
  refine ⟨hstep.trans hproc, ?_⟩
  rw [hstep, hproc]
  exact dkeys_dset _ _ _ hmem

/-- C2 witness: a concrete redeclaration of table `t` replaces its
columns in place and keeps its index bookkeeping and key position. -/
theorem c2_redeclare_replaces_in_place_witness :
    let tblW : Table :=
      { name := strOf "t", columns := [{ name := strOf "old" }],
        primary_key := [strOf "old"],
        indexes := [{ name := some (strOf "ix"), columns := [strOf "OLD"] }],
        constraint_types := [(strOf "ix", strOf "unique")],
        primary_key_name := some (strOf "pk") }
    let schemaW : Schema := [(strOf "a", stubTable (strOf "a")), (strOf "t", tblW)]
    let sqlW : Str := strOf "CREATE TABLE t (x INT);"
    scanCreate sqlW = [(strOf "t", strOf "x INT")] ∧
    (let items := split_top_level_commas (strOf "x INT")
     let fresh := items.foldl (fun x i => parse_table_constraint i x)
        (items.foldl (fun x i => parse_column_definition i x) (stubTable (strOf "t")))
     parse_create_table sqlW schemaW =
       dset schemaW (strOf "t")
         { tblW with columns := fresh.columns, primary_key := fresh.primary_key,
                     foreign_keys := fresh.foreign_keys } ∧
     dkeys (parse_create_table sqlW schemaW) = dkeys schemaW) := by
  refine ⟨by decide, ?_⟩
  exact c2_redeclare_replaces_in_place _ _ (strOf "t") (strOf "x INT") (strOf "t") _
    (by decide) (by decide) (by decide)

end ClaimC2

section ClaimC4

/-!
## C4: rename cascades across the schema
-/

theorem dget_dpop_ne [DecidableEq κ] (d : List (κ × α)) (old k : κ) (h : k ≠ old) :
    dget (dpop d old) k = dget d k := by
  induction d with
  | nil => rfl
  | cons q rest ih =>
    obtain ⟨qk, qv⟩ := q
    by_cases hq : qk = old
    · subst hq
      have hqk : ¬ qk = k := fun he => h he.symm
      have h1 : dpop ((qk, qv) :: rest) qk = rest := by simp [dpop]
      have h2 : dget ((qk, qv) :: rest) k = dget rest k := by simp [dget, hqk]
      rw [h1, h2]
    · by_cases hqk : qk = k
      · subst hqk; simp [dpop, dget, hq]
      · simp [dpop, dget, hq, hqk, ih]

theorem dget_map_val [DecidableEq κ] (l : List (κ × α)) (g : α → β) (k : κ) :
    dget (l.map (fun p => (p.1, g p.2))) k = (dget l k).map g := by
  induction l with
  | nil => rfl
  | cons q rest ih =>
    obtain ⟨qk, qv⟩ := q
    by_cases hq : qk = k
    · subst hq; simp [dget]
    · simp [dget, hq, ih]

theorem mem_dset_nodup [DecidableEq κ] {d : List (κ × α)} {k : κ} {v : α} {p : κ × α}
    (hnd : (dkeys d).Nodup) (h : p ∈ dset d k v) :
    p = (k, v) ∨ (p ∈ d ∧ p.1 ≠ k) := by
  induction d with
  | nil => simp [dset] at h; simp [h]
  | cons q rest ih =>
    obtain ⟨qk, qv⟩ := q
    simp only [dkeys, List.map_cons, List.nodup_cons] at hnd
    by_cases hq : qk = k
    · subst hq
      simp only [dset, if_pos rfl] at h
      rcases List.mem_cons.mp h with h1 | h1
      · exact Or.inl (by simp [h1])
      · refine Or.inr ⟨List.mem_cons_of_mem _ h1, ?_⟩
        intro hpk
        exact hnd.1 (hpk ▸ List.mem_map_of_mem Prod.fst h1)
    · simp only [dset, if_neg hq] at h
      rcases List.mem_cons.mp h with h1 | h1
      · subst h1
        exact Or.inr ⟨List.mem_cons_self _ _, hq⟩
      · rcases ih hnd.2 h1 with h2 | h2
        · exact Or.inl h2
        · exact Or.inr ⟨List.mem_cons_of_mem _ h2.1, h2.2⟩

theorem rename_column_name (t : Table) (o n : Str) :
    (t.rename_column o n).name = t.name := rfl

theorem rename_column_fks (t : Table) (o n : Str) :
    (t.rename_column o n).foreign_keys = t.foreign_keys.map (fun fk =>
      if fk.ref_table = t.name then
        { fk with
            columns := fk.columns.map (fun col =>
              if pyLower col = pyLower o then n else col),
            ref_columns := fk.ref_columns.map (fun col =>
              if pyLower col = pyLower o then n else col) }
      else
        { fk with columns := fk.columns.map (fun col =>
            if pyLower col = pyLower o then n else col) }) := rfl

theorem rename_column_columns_names (t : Table) (o n : Str) :
    (t.rename_column o n).columns.map Column.name =
      t.columns.map (fun c => if pyLower c.name = pyLower o then n else c.name) := by
  simp only [Table.rename_column, Table.sync_primary_key_flags, List.map_map]
  refine List.map_congr_left (fun c _ => ?_)
  by_cases hc : pyLower c.name = pyLower o <;> simp [Function.comp, hc]

/-- C4: rename cascades.  Renaming a table rebinds it under the new
name and rewrites every table's foreign keys whose target equals the
old name, leaving no foreign key referencing the old table name;
renaming a column inside table `t` renames the column and rewrites
every other table's foreign keys targeting `t` whose target column
matches the old name, leaving no foreign key on `t` still referencing
the old column name. -/
theorem c4_rename_cascades :
    (∀ (schema : Schema) (old new : Str) (tblOld : Table),
      old ≠ new → dget schema old = some tblOld →
      (dget (rename_table schema old new) new =
        some { tblOld with
                 name := new,
                 foreign_keys := tblOld.foreign_keys.map (fun fk =>
                   if fk.ref_table = old then { fk with ref_table := new } else fk) }) ∧
      (∀ k u, k ≠ old → k ≠ new → dget schema k = some u →
        dget (rename_table schema old new) k =
          some { u with foreign_keys := u.foreign_keys.map (fun fk =>
            if fk.ref_table = old then { fk with ref_table := new } else fk) }) ∧
      (∀ p ∈ rename_table schema old new, ∀ fk ∈ p.2.foreign_keys,
        fk.ref_table ≠ old)) ∧
    (∀ (schema : Schema) (tname old new : Str) (tbl : Table),
      old ≠ new → (dkeys schema).Nodup → (∀ p ∈ schema, p.2.name = p.1) →
      dget schema tname = some tbl →
      (dget (rename_column_in_schema schema tname old new) tname =
        some (tbl.rename_column old new)) ∧
      ((tbl.rename_column old new).columns.map Column.name =
        tbl.columns.map (fun c => if pyLower c.name = pyLower old then new else c.name)) ∧
      (∀ k u, k ≠ tname → dget schema k = some u →
        dget (rename_column_in_schema schema tname old new) k =
          some { u with foreign_keys := u.foreign_keys.map (fun fk =>
            if fk.ref_table = tname then
              { fk with ref_columns := fk.ref_columns.map (fun c =>
                  if pyLower c = pyLower old then new else c) }
            else fk) }) ∧
      (∀ p ∈ rename_column_in_schema schema tname old new, ∀ fk ∈ p.2.foreign_keys,
        fk.ref_table = tname → ∀ c ∈ fk.ref_columns, c ≠ old)) := by
  constructor
  · intro schema old new tblOld hne hget
    simp only [rename_table, hget]
    refine ⟨?_, ?_, ?_⟩
    · rw [dget_map_val, dget_dset_self]
      rfl
    · intro k u hko hkn hgetk
      rw [dget_map_val, dget_dset_ne _ _ _ _ (fun he => hkn he.symm),
        dget_dpop_ne _ _ _ hko, hgetk]
      rfl
    · intro p hp fk hfk
      rcases List.mem_map.mp hp with ⟨q, _, hq⟩
      rw [← hq] at hfk
      rcases List.mem_map.mp hfk with ⟨fk0, _, hfk0⟩
      by_cases hr : fk0.ref_table = old
      · rw [if_pos hr] at hfk0
        rw [← hfk0]
        exact fun he => hne he.symm
      · rw [if_neg hr] at hfk0
        rw [← hfk0]
        exact hr
  · intro schema tname old new tbl hne hnodup hcons hget
    have hname : tbl.name = tname := hcons (tname, tbl) (dget_mem hget)
    have hskip : fkRetargetColumn tname old new (tbl.rename_column old new) =
        tbl.rename_column old new := by
      simp only [fkRetargetColumn]
      rw [if_pos (by rw [rename_column_name, hname])]
    simp only [rename_column_in_schema, hget]
    refine ⟨?_, rename_column_columns_names tbl old new, ?_, ?_⟩
    · rw [dget_map_val, dget_dset_self, Option.map_some', hskip]
    · intro k u hk hgetk
      have huname : u.name = k := hcons (k, u) (dget_mem hgetk)
      rw [dget_map_val, dget_dset_ne _ _ _ _ (fun he => hk he.symm), hgetk,
        Option.map_some']
      simp only [fkRetargetColumn]
      rw [if_neg (by rw [huname]; exact hk)]
    · intro p hp fk hfk hr c hc
      rcases List.mem_map.mp hp with ⟨q, hq_mem, hq⟩
      rcases mem_dset_nodup hnodup hq_mem with hq1 | ⟨hq1, hq2⟩
      · subst hq1
        rw [← hq] at hfk
        simp only at hfk
        rw [hskip, rename_column_fks] at hfk
        rcases List.mem_map.mp hfk with ⟨fk0, _, hfk0⟩
        by_cases hr0 : fk0.ref_table = tbl.name
        · rw [if_pos hr0] at hfk0
          rw [← hfk0] at hc
          simp only at hc
          rcases List.mem_map.mp hc with ⟨c0, _, hc0⟩
          by_cases hcm : pyLower c0 = pyLower old
          · rw [if_pos hcm] at hc0
            exact fun he => hne (hc0.trans he).symm
          · rw [if_neg hcm] at hc0
            intro he
            exact hcm (by rw [hc0, he])
        · rw [if_neg hr0] at hfk0
          rw [← hfk0] at hr
          simp only at hr
          exact absurd (hr.trans hname.symm) hr0
      · have huname : q.2.name = q.1 := hcons q hq1
        rw [← hq] at hfk
        simp only [fkRetargetColumn] at hfk
        rw [if_neg (by rw [huname]; exact hq2)] at hfk
        rcases List.mem_map.mp hfk with ⟨fk0, _, hfk0⟩
        by_cases hr0 : fk0.ref_table = tname
        · rw [if_pos hr0] at hfk0
          rw [← hfk0] at hc
          simp only at hc
          rcases List.mem_map.mp hc with ⟨c0, _, hc0⟩
          by_cases hcm : pyLower c0 = pyLower old
          · rw [if_pos hcm] at hc0
            exact fun he => hne (hc0.trans he).symm
          · rw [if_neg hcm] at hc0
            intro he
            exact hcm (by rw [hc0, he])
        · rw [if_neg hr0] at hfk0
          rw [← hfk0] at hr
          exact absurd hr hr0

/-- C4 witness: the two rename helpers applied to a concrete two-table
schema (`a` holding a foreign key into `b(x)`). -/
theorem c4_rename_cascades_witness :
    let tA : Table :=
      { name := strOf "a",
        foreign_keys := [⟨[strOf "k"], strOf "b", [strOf "x"], none⟩] }
    let tB : Table :=
      { name := strOf "b", columns := [{ name := strOf "x" }],
        primary_key := [strOf "x"] }
    let sW : Schema := [(strOf "a", tA), (strOf "b", tB)]
    ((dget (rename_table sW (strOf "b") (strOf "c")) (strOf "c") =
        some { tB with name := strOf "c" }) ∧
      (∀ k u, k ≠ strOf "b" → k ≠ strOf "c" → dget sW k = some u →
        dget (rename_table sW (strOf "b") (strOf "c")) k =
          some { u with foreign_keys := u.foreign_keys.map (fun fk =>
            if fk.ref_table = strOf "b" then { fk with ref_table := strOf "c" } else fk) }) ∧
      (∀ p ∈ rename_table sW (strOf "b") (strOf "c"), ∀ fk ∈ p.2.foreign_keys,
        fk.ref_table ≠ strOf "b")) ∧
    ((dget (rename_column_in_schema sW (strOf "b") (strOf "x") (strOf "y")) (strOf "b") =
        some (tB.rename_column (strOf "x") (strOf "y"))) ∧
      ((tB.rename_column (strOf "x") (strOf "y")).columns.map Column.name =
        tB.columns.map (fun c =>
          if pyLower c.name = pyLower (strOf "x") then strOf "y" else c.name)) ∧
      (∀ k u, k ≠ strOf "b" → dget sW k = some u →
        dget (rename_column_in_schema sW (strOf "b") (strOf "x") (strOf "y")) k =
          some { u with foreign_keys := u.foreign_keys.map (fun fk =>
            if fk.ref_table = strOf "b" then
              { fk with ref_columns := fk.ref_columns.map (fun c =>
                  if pyLower c = pyLower (strOf "x") then strOf "y" else c) }
            else fk) }) ∧
      (∀ p ∈ rename_column_in_schema sW (strOf "b") (strOf "x") (strOf "y"),
        ∀ fk ∈ p.2.foreign_keys, fk.ref_table = strOf "b" →
          ∀ c ∈ fk.ref_columns, c ≠ strOf "x")) := by
  constructor
  · exact c4_rename_cascades.1 _ (strOf "b") (strOf "c") _ (by decide) (by decide)
  · exact c4_rename_cascades.2 _ (strOf "b") (strOf "x") (strOf "y") _ (by decide)
      (by decide) (by decide) (by decide)

end ClaimC4

section ClaimC5

/-!
## C5: grid layout
-/

theorem sortStrs_insert_length (x : Str) (l : List Str) :
    (sortStrs.insert x l).length = l.length + 1 := by
  induction l with
  | nil => rfl
  | cons y ys ih =>
    simp only [sortStrs.insert]
    by_cases h : strLt x y
    · simp [h]
    · simp [h, ih]

theorem sortStrs_length (l : List Str) : (sortStrs l).length = l.length := by
  induction l with
  | nil => rfl
  | cons x xs ih => simp [sortStrs, sortStrs_insert_length, ih]

theorem chunkRows_flatten (pr : Nat) (l : List α) : (chunkRows pr l).flatten = l := by
  induction pr, l using chunkRows.induct with
  | case1 _ => simp [chunkRows]
  | case2 c cs => simp [chunkRows]
  | case3 pr c cs ih =>
    simp only [chunkRows, List.flatten_cons, ih, List.take_append_drop]

theorem chunkRows_length (pr : Nat) (hpr : 1 ≤ pr) (l : List α) :
    (chunkRows pr l).length = (l.length + pr - 1) / pr := by
  induction pr, l using chunkRows.induct with
  | case1 pr =>
    simp only [chunkRows, List.length_nil]
    have h0 : (0 + pr - 1) / pr = 0 := Nat.div_eq_of_lt (by omega)
    omega
  | case2 c cs => omega
  | case3 pr c cs ih =>
    simp only [chunkRows, List.length_cons, List.length_drop] at ih ⊢
    by_cases hle : cs.length + 1 ≤ pr + 1
    · have hdrop : cs.length + 1 - (pr + 1) = 0 := by omega
      rw [hdrop] at ih
      have h0 : (0 + (pr + 1) - 1) / (pr + 1) = 0 := by
        rw [Nat.zero_add]
        exact Nat.div_eq_of_lt (by omega)
      rw [ih hpr, h0]
      have : (cs.length + 1 + (pr + 1) - 1) / (pr + 1) = 1 := by
        have h1 : cs.length + 1 + (pr + 1) - 1 = (cs.length) + (pr + 1) := by omega
        rw [h1, Nat.add_div_right _ (by omega)]
        rw [Nat.div_eq_of_lt (by omega)]
      rw [this]
    · rw [ih hpr]
      have h1 : cs.length + 1 - (pr + 1) + (pr + 1) - 1 + (pr + 1) =
          cs.length + 1 + (pr + 1) - 1 := by omega
      have h2 : (cs.length + 1 - (pr + 1) + (pr + 1) - 1) / (pr + 1) + 1 =
          (cs.length + 1 - (pr + 1) + (pr + 1) - 1 + (pr + 1)) / (pr + 1) := by
        rw [Nat.add_div_right _ (by omega)]
      rw [h2, h1]

theorem layoutRowsGo_eq_flatten (schema : Schema) (config : LayoutConfig) :
    ∀ (chunks : List (List Str)) (y : Int),
    layoutRowsGo schema config chunks y =
      (layoutRowsList schema config chunks y).flatten := by
  intro chunks
  induction chunks with
  | nil => intro y; rfl
  | cons row rows ih =>
    intro y
    simp only [layoutRowsGo, layoutRowsList, List.flatten_cons, ih]

theorem layoutRow_length (schema : Schema) (config : LayoutConfig)
    (row : List Str) (y : Int) :
    (layoutRow schema config row y).length = row.length := by
  simp [layoutRow]

theorem mem_layoutRow {schema : Schema} {config : LayoutConfig} {row : List Str}
    {y : Int} {a : TableLayout} (h : a ∈ layoutRow schema config row y) :
    a.y = y ∧ a.width = config.table_width ∧
    a.height = calculate_table_height a.table config := by
  rcases List.mem_map.mp h with ⟨p, _, hp⟩
  obtain ⟨i, nm⟩ := p
  rw [← hp]
  exact ⟨rfl, rfl, rfl⟩

theorem layoutRow_get (schema : Schema) (config : LayoutConfig) (row : List Str)
    (y : Int) (j : Nat) (hj : j < row.length) :
    (layoutRow schema config row y).get
        ⟨j, by rw [layoutRow_length]; exact hj⟩ =
      { table := (dget schema (row.get ⟨j, hj⟩)).getD (stubTable (row.get ⟨j, hj⟩)),
        x := config.padding_x + (j : Int) * (config.table_width + config.gap_x),
        y := y, width := config.table_width,
        height := calculate_table_height
          ((dget schema (row.get ⟨j, hj⟩)).getD (stubTable (row.get ⟨j, hj⟩))) config } := by
  simp [layoutRow, List.get_eq_getElem, List.getElem_map, List.getElem_zip,
    List.getElem_range]

theorem layoutRow_heights (schema : Schema) (config : LayoutConfig)
    (row : List Str) (y : Int) :
    (layoutRow schema config row y).map (fun l => l.height) =
      row.map (fun n =>
        calculate_table_height ((dget schema n).getD (stubTable n)) config) := by
  refine List.ext_get (by simp [layoutRow_length]) (fun j h1 h2 => ?_)
  have hj : j < row.length := by simpa [layoutRow_length] using h2
  simp [layoutRow, List.getElem_map, List.getElem_zip, List.getElem_range]

theorem layoutRow_names (schema : Schema) (config : LayoutConfig)
    (row : List Str) (y : Int) (hcons : ∀ p ∈ schema, p.2.name = p.1) :
    (layoutRow schema config row y).map (fun l => l.table.name) = row := by
  refine List.ext_get (by simp [layoutRow_length]) (fun j h1 h2 => ?_)
  have hj : j < row.length := by simpa using h2
  simp only [layoutRow, List.get_eq_getElem, List.getElem_map, List.getElem_zip,
    List.getElem_range]
  cases hg : dget schema row[j] with
  | none => simp [hg, stubTable]
  | some tb => simpa [hg] using hcons _ (dget_mem hg)

theorem mem_layoutRowsList {schema : Schema} {config : LayoutConfig} :
    ∀ {chunks : List (List Str)} {y : Int} {r : List TableLayout},
    r ∈ layoutRowsList schema config chunks y →
    ∃ ch y', ch ∈ chunks ∧ r = layoutRow schema config ch y' := by
  intro chunks
  induction chunks with
  | nil => intro y r h; simp [layoutRowsList] at h
  | cons ch rest ih =>
    intro y r h
    rcases List.mem_cons.mp h with h1 | h1
    · exact ⟨ch, y, List.mem_cons_self _ _, h1⟩
    · rcases ih h1 with ⟨ch', y', hm, he⟩
      exact ⟨ch', y', List.mem_cons_of_mem _ hm, he⟩

theorem layoutRowsList_lengths (schema : Schema) (config : LayoutConfig) :
    ∀ (chunks : List (List Str)) (y : Int),
    (layoutRowsList schema config chunks y).map List.length =
      chunks.map List.length := by
  intro chunks
  induction chunks with
  | nil => intro y; rfl
  | cons ch rest ih =>
    intro y
    simp only [layoutRowsList, List.map_cons, layoutRow_length, ih]

theorem chunkRows_sizes (pr : Nat) (l : List α) : 1 ≤ pr →
    (∀ ch ∈ chunkRows pr l, ch ≠ [] ∧ ch.length ≤ pr) ∧
    (∀ ch ∈ (chunkRows pr l).dropLast, ch.length = pr) := by
  induction pr, l using chunkRows.induct with
  | case1 pr => intro _; simp [chunkRows]
  | case2 c cs => intro h; omega
  | case3 pr c cs ih =>
    intro hpr
    obtain ⟨ih1, ih2⟩ := ih hpr
    constructor
    · intro ch hch
      simp only [chunkRows] at hch
      rcases List.mem_cons.mp hch with h1 | h1
      · subst h1
        refine ⟨by simp, by simp⟩
      · exact ih1 ch h1
    · intro ch hch
      simp only [chunkRows] at hch
      cases hrest : chunkRows (pr + 1) (List.drop (pr + 1) (c :: cs)) with
      | nil => rw [hrest] at hch; simp at hch
      | cons r2 rs2 =>
        rw [hrest] at hch
        rw [List.dropLast_cons₂] at hch
        rcases List.mem_cons.mp hch with h1 | h1
        · subst h1
          have hne : List.drop (pr + 1) (c :: cs) ≠ [] := by
            intro he
            rw [he] at hrest
            simp [chunkRows] at hrest
          have hlen : pr + 1 < (c :: cs).length := by
            by_contra hc
            exact hne (List.drop_eq_nil_of_le (by omega))
          simp only [List.length_cons] at hlen
          simp only [List.length_take, List.length_cons]
          omega
        · exact ih2 ch (hrest ▸ h1)

theorem chunkRows_flatten_eq (pr : Nat) (hpr : 1 ≤ pr) :
    ∀ ll : List (List α),
    (∀ ch ∈ ll, ch ≠ [] ∧ ch.length ≤ pr) →
    (∀ ch ∈ ll.dropLast, ch.length = pr) →
    chunkRows pr ll.flatten = ll := by
  intro ll
  induction ll with
  | nil => intro _ _; simp [chunkRows]
  | cons r rs ih =>
    intro h1 h2
    obtain ⟨hrne, hrle⟩ := h1 r (List.mem_cons_self _ _)
    obtain ⟨c, cs, rfl⟩ : ∃ c cs, r = c :: cs := by
      cases r with
      | nil => exact absurd rfl hrne
      | cons c cs => exact ⟨c, cs, rfl⟩
    obtain ⟨p, rfl⟩ : ∃ p, pr = p + 1 := ⟨pr - 1, by omega⟩
    cases rs with
    | nil =>
      simp only [List.flatten_cons, List.flatten_nil, List.append_nil, chunkRows]
      rw [List.take_of_length_le hrle, List.drop_eq_nil_of_le hrle]
      simp [chunkRows]
    | cons r2 rs2 =>
      have hrlen : (c :: cs).length = p + 1 := by
        refine h2 _ ?_
        rw [List.dropLast_cons₂]
        exact List.mem_cons_self _ _
      have key : chunkRows (p + 1) ((c :: cs) ++ (r2 :: rs2).flatten) =
          (c :: cs) :: chunkRows (p + 1) ((r2 :: rs2).flatten) := by
        have hstep : (c :: cs) ++ (r2 :: rs2).flatten =
            c :: (cs ++ (r2 :: rs2).flatten) := rfl
        rw [hstep]
        simp only [chunkRows]
        rw [← hstep, ← hrlen, List.take_left, List.drop_left]
      calc chunkRows (p + 1) (((c :: cs) :: r2 :: rs2).flatten)
          = chunkRows (p + 1) ((c :: cs) ++ (r2 :: rs2).flatten) := by
            rw [List.flatten_cons]
        _ = (c :: cs) :: chunkRows (p + 1) ((r2 :: rs2).flatten) := key
        _ = (c :: cs) :: (r2 :: rs2) := by
            rw [ih (fun ch hch => h1 ch (List.mem_cons_of_mem _ hch))
              (fun ch hch => h2 ch
                (by rw [List.dropLast_cons₂]; exact List.mem_cons_of_mem _ hch))]

theorem layoutRowsList_y_step (schema : Schema) (config : LayoutConfig) :
    ∀ (chunks : List (List Str)) (y : Int) (k : Nat)
    (hk : k + 1 < (layoutRowsList schema config chunks y).length),
    ∀ a ∈ (layoutRowsList schema config chunks y).get ⟨k + 1, hk⟩,
    ∀ b ∈ (layoutRowsList schema config chunks y).get ⟨k, Nat.lt_of_succ_lt hk⟩,
    a.y = b.y +
      listMaxD (((layoutRowsList schema config chunks y).get
        ⟨k, Nat.lt_of_succ_lt hk⟩).map (fun l => l.height)) + config.gap_y := by
  intro chunks
  induction chunks with
  | nil => intro y k hk; simp [layoutRowsList] at hk
  | cons ch rest ih =>
    intro y k hk a ha b hb
    match k with
    | 0 =>
      simp only [layoutRowsList, List.get_eq_getElem, List.getElem_cons_succ,
        List.getElem_cons_zero] at ha hb ⊢
      have hb' := (mem_layoutRow hb).1
      cases rest with
      | nil =>
        simp only [layoutRowsList, List.length_cons, List.length_nil] at hk
        omega
      | cons ch2 rest2 =>
        simp only [layoutRowsList, List.getElem_cons_zero] at ha
        have ha' := (mem_layoutRow ha).1
        rw [ha', hb', layoutRow_heights]
    | k' + 1 =>
      simp only [layoutRowsList, List.get_eq_getElem, List.getElem_cons_succ] at ha hb ⊢
      exact ih _ k' (by
        simpa [layoutRowsList] using Nat.lt_of_succ_lt_succ hk) a ha b hb


theorem layoutRow_x (schema : Schema) (config : LayoutConfig) (row : List Str)
    (y : Int) (j : Nat) (hj : j < (layoutRow schema config row y).length) :
    ((layoutRow schema config row y).get ⟨j, hj⟩).x =
      config.padding_x + (j : Int) * (config.table_width + config.gap_x) := by
  have hj' : j < row.length := by simpa [layoutRow_length] using hj
  simp [layoutRow, List.get_eq_getElem, List.getElem_map, List.getElem_zip,
    List.getElem_range]

theorem layoutRowsList_flatten_names (schema : Schema) (config : LayoutConfig)
    (hcons : ∀ p ∈ schema, p.2.name = p.1) :
    ∀ (chunks : List (List Str)) (y : Int),
    ((layoutRowsList schema config chunks y).flatten).map
      (fun l => l.table.name) = chunks.flatten := by
  intro chunks
  induction chunks with
  | nil => intro y; rfl
  | cons ch rest ih =>
    intro y
    simp only [layoutRowsList, List.flatten_cons, List.map_append, ih,
      layoutRow_names _ _ _ _ hcons]

/-- C5: for every schema and layout configuration with `per_row ≥ 1` (and,
additionally to the claim, a non-negative horizontal gap, without which the
horizontal-disjointness part fails), `layout_tables` emits exactly one
geometry per table in sorted-name order; its output is the concatenation of
the placement rows, whose count is `⌈tables / per_row⌉`; every geometry has
the configured width and height `header_height + max 1 cols * row_height`;
within a row the x-positions accumulate `table_width + gap_x` per column, the
horizontal intervals `[x, x+width)` of two distinct tables are disjoint, and
all y-positions agree; and each row's y-origin is the previous row's plus
that row's maximum table height plus the vertical gap. -/
theorem c5_grid_layout (schema : Schema) (config : LayoutConfig)
    (pr : Nat) (rows : List (List TableLayout))
    (hpr : 1 ≤ config.per_row) (hgx : 0 ≤ config.gap_x)
    (hcons : ∀ p ∈ schema, p.2.name = p.1)
    (hprdef : pr = (max 1 config.per_row).toNat)
    (hrows : rows = layoutRowsList schema config
      (chunkRows pr (sortStrs (dkeys schema))) config.padding_y) :
    ((layout_tables schema config).map (fun l => l.table.name) =
        sortStrs (dkeys schema)) ∧
    (layout_tables schema config).length = schema.length ∧
    rows.flatten = layout_tables schema config ∧
    rows.length = (schema.length + pr - 1) / pr ∧
    (∀ l ∈ layout_tables schema config,
      l.width = config.table_width ∧
      l.height = config.header_height +
        max 1 (l.table.columns.length : Int) * config.row_height) ∧
    (∀ r ∈ rows, ∀ (i : Nat) (hi : i < r.length),
      (r.get ⟨i, hi⟩).x =
        config.padding_x + (i : Int) * (config.table_width + config.gap_x)) ∧
    (∀ r ∈ rows, ∀ a ∈ r, ∀ b ∈ r, a.y = b.y) ∧
    (∀ r ∈ rows, ∀ (i j : Nat) (hi : i < r.length) (hj : j < r.length),
      i ≠ j → ∀ z : Int,
      ¬ ((r.get ⟨i, hi⟩).x ≤ z ∧ z < (r.get ⟨i, hi⟩).x + (r.get ⟨i, hi⟩).width ∧
         (r.get ⟨j, hj⟩).x ≤ z ∧
           z < (r.get ⟨j, hj⟩).x + (r.get ⟨j, hj⟩).width)) ∧
    (∀ (k : Nat) (hk : k + 1 < rows.length),
      ∀ a ∈ rows.get ⟨k + 1, hk⟩, ∀ b ∈ rows.get ⟨k, Nat.lt_of_succ_lt hk⟩,
      a.y = b.y + listMaxD ((rows.get ⟨k, Nat.lt_of_succ_lt hk⟩).map
        (fun l => l.height)) + config.gap_y) := by
  subst hprdef
  subst hrows
  have hpr1 : 1 ≤ (max 1 config.per_row).toNat := by
    have h1 : (1 : Int) ≤ max 1 config.per_row := le_max_left _ _
    omega
  have hflat : layout_tables schema config =
      (layoutRowsList schema config
        (chunkRows (max 1 config.per_row).toNat (sortStrs (dkeys schema)))
        config.padding_y).flatten := by
    rw [← layoutRowsGo_eq_flatten]
    by_cases h : sortStrs (dkeys schema) = []
    · simp [layout_tables, h, chunkRows, layoutRowsGo]
    · simp [layout_tables, h]
  have hnames : (layout_tables schema config).map (fun l => l.table.name) =
      sortStrs (dkeys schema) := by
    rw [hflat, layoutRowsList_flatten_names schema config hcons,
      chunkRows_flatten]
  have hlen : (layout_tables schema config).length = schema.length := by
    have h := congrArg List.length hnames
    simpa [sortStrs_length, dkeys] using h
  refine ⟨hnames, hlen, hflat.symm, ?_, ?_, ?_, ?_, ?_, ?_⟩
  · have h1 := congrArg List.length (layoutRowsList_lengths schema config
      (chunkRows (max 1 config.per_row).toNat (sortStrs (dkeys schema)))
      config.padding_y)
    simp only [List.length_map] at h1
    rw [h1, chunkRows_length _ hpr1, sortStrs_length]
    simp [dkeys]
  · intro l hl
    rw [hflat] at hl
    rcases List.mem_flatten.mp hl with ⟨r, hr, hlr⟩
    rcases mem_layoutRowsList hr with ⟨ch, y', _, rfl⟩
    obtain ⟨_, hw, hh⟩ := mem_layoutRow hlr
    exact ⟨hw, by rw [hh]; simp [calculate_table_height]⟩
  · intro r hr i hi
    rcases mem_layoutRowsList hr with ⟨ch, y', _, rfl⟩
    exact layoutRow_x schema config ch y' i hi
  · intro r hr a ha b hb
    rcases mem_layoutRowsList hr with ⟨ch, y', _, rfl⟩
    rw [(mem_layoutRow ha).1, (mem_layoutRow hb).1]
  · intro r hr i j hi hj hij z hz
    rcases mem_layoutRowsList hr with ⟨ch, y', _, rfl⟩
    obtain ⟨h1, h2, h3, h4⟩ := hz
    have hwa := (mem_layoutRow (List.get_mem _ _ hi)).2.1
    have hwb := (mem_layoutRow (List.get_mem _ _ hj)).2.1
    rw [layoutRow_x schema config ch y' i hi] at h1 h2
    rw [layoutRow_x schema config ch y' j hj] at h3 h4
    rw [hwa] at h2
    rw [hwb] at h4
    have hw : (0 : Int) < config.table_width := by linarith
    rcases Nat.lt_or_ge i j with hlt | hge
    · have hij1 : ((i : Int) + 1) ≤ (j : Int) := by exact_mod_cast hlt
      have hm : ((i : Int) + 1) * (config.table_width + config.gap_x) ≤
          (j : Int) * (config.table_width + config.gap_x) :=
        mul_le_mul_of_nonneg_right hij1 (by linarith)
      have hexp : ((i : Int) + 1) * (config.table_width + config.gap_x) =
          (i : Int) * (config.table_width + config.gap_x) +
            (config.table_width + config.gap_x) := by ring
      linarith
    · have hlt : j < i := by omega
      have hij1 : ((j : Int) + 1) ≤ (i : Int) := by exact_mod_cast hlt
      have hm : ((j : Int) + 1) * (config.table_width + config.gap_x) ≤
          (i : Int) * (config.table_width + config.gap_x) :=
        mul_le_mul_of_nonneg_right hij1 (by linarith)
      have hexp : ((j : Int) + 1) * (config.table_width + config.gap_x) =
          (j : Int) * (config.table_width + config.gap_x) +
            (config.table_width + config.gap_x) := by ring
      linarith
  · intro k hk a ha b hb
    exact layoutRowsList_y_step schema config _ _ k hk a ha b hb

/-- C5 counterexample to the unrestricted claim: with a negative horizontal
gap (allowed by the claim, which only asks `per_row ≥ 1`) two tables of the
same placement row horizontally overlap. -/
theorem c5_gapx_counterexample :
    ∃ (config : LayoutConfig) (a b : TableLayout) (z : Int),
      1 ≤ config.per_row ∧
      layout_tables ordersSchema config = [a, b] ∧
      a.y = b.y ∧
      a.x ≤ z ∧ z < a.x + a.width ∧ b.x ≤ z ∧ z < b.x + b.width := by
  refine ⟨{ gap_x := -350 },
    { table := customersTable, x := 80, y := 40, width := 290, height := 60 },
    { table := ordersTable, x := 20, y := 40, width := 290, height := 60 },
    100, by decide, ?_, by decide, by decide, by decide, by decide, by decide⟩
  have hnames : sortStrs (dkeys ordersSchema) =
      [strOf "customers", strOf "orders"] := by decide
  have hch : chunkRows 3 [strOf "customers", strOf "orders"] =
      [[strOf "customers", strOf "orders"]] := by
    simp [chunkRows]
  have hne : sortStrs (dkeys ordersSchema) ≠ [] := by rw [hnames]; decide
  have key : layout_tables ordersSchema { gap_x := -350 } =
      layoutRowsGo ordersSchema { gap_x := -350 }
        (chunkRows 3 (sortStrs (dkeys ordersSchema))) 40 := by
    simp [layout_tables, hne]
  rw [key, hnames, hch]
  decide

theorem c5_grid_layout_witness :
    ((layout_tables ordersSchema {}).map (fun l => l.table.name) =
        sortStrs (dkeys ordersSchema)) ∧
    (layout_tables ordersSchema {}).length = ordersSchema.length := by
  have h := c5_grid_layout ordersSchema {} 3
    (layoutRowsList ordersSchema {}
      (chunkRows 3 (sortStrs (dkeys ordersSchema)))
      (({} : LayoutConfig).padding_y))
    (by decide) (by decide) (by decide) (by decide) rfl
  exact ⟨h.1, h.2.1⟩

end ClaimC5

section ClaimC6

/-!
## C6: edge target-anchor resolution
-/

/-- C6: the target anchor of a reference edge is resolved by trying in
order: the explicit target column's rendered cell, the rendered cell of the
target table's column named like the local column, and the rendered cells of
the target table's primary-key columns in sorted order (first hit wins); the
edge loop falls back to the target table's box id only when all of these
miss.  In the `orders(customer_id) → customers(id)` scenario (with `id` the
primary key of `customers` and both tables rendered) the single emitted edge
anchors both ends at column-level cells, never at a table box. -/
theorem c6_edge_anchor_resolution :
    (∀ (cc : List ((Str × Str) × Str)) (schema : Schema) (refTable : Str)
       (rc : Option Str) (localCol : Str) (rt : Table),
      dget schema refTable = some rt →
      resolveTargetCell cc schema refTable rc localCol =
        ((match rc with
          | some c => dget cc (refTable, pyLower c)
          | none => none) <|>
         dget cc (refTable, pyLower localCol) <|>
         ((sortStrs rt.primary_key).map pyLower).findSome?
           (fun cand => dget cc (refTable, cand)))) ∧
    ((build_drawio ordersSchema {}).edges =
        [⟨strOf "mx13", strOf "mx12", strOf "mx7"⟩] ∧
      dget (build_drawio ordersSchema {}).cells.column_cell_ids
        (strOf "orders", strOf "customer_id") = some (strOf "mx12") ∧
      dget (build_drawio ordersSchema {}).cells.column_cell_ids
        (strOf "customers", strOf "id") = some (strOf "mx7") ∧
      dget (build_drawio ordersSchema {}).cells.table_id_map
        (strOf "customers") = some (strOf "mx4") ∧
      dget (build_drawio ordersSchema {}).cells.table_id_map
        (strOf "orders") = some (strOf "mx9") ∧
      (∀ e ∈ (build_drawio ordersSchema {}).edges,
        e.source ∉ dvalues (build_drawio ordersSchema {}).cells.table_id_map ∧
        e.target ∉ dvalues (build_drawio ordersSchema {}).cells.table_id_map ∧
        e.source ∈ dvalues (build_drawio ordersSchema {}).cells.column_cell_ids ∧
        e.target ∈ dvalues (build_drawio ordersSchema {}).cells.column_cell_ids)) := by
  constructor
  · intro cc schema refTable rc localCol rt hrt
    cases rc with
    | none =>
      cases h1 : dget cc (refTable, pyLower localCol) with
      | some v => simp [resolveTargetCell, hrt, h1]
      | none => simp [resolveTargetCell, hrt, h1]
    | some c =>
      cases h0 : dget cc (refTable, pyLower c) with
      | some v => simp [resolveTargetCell, hrt, h0]
      | none =>
        cases h1 : dget cc (refTable, pyLower localCol) with
        | some v => simp [resolveTargetCell, hrt, h0, h1]
        | none => simp [resolveTargetCell, hrt, h0, h1]
  · have hnames : sortStrs (dkeys ordersSchema) =
        [strOf "customers", strOf "orders"] := by decide
    have hne : sortStrs (dkeys ordersSchema) ≠ [] := by rw [hnames]; decide
    have hch : chunkRows 3 [strOf "customers", strOf "orders"] =
        [[strOf "customers", strOf "orders"]] := by
      simp [chunkRows]
    have hlt : layout_tables ordersSchema {} =
        layoutRowsGo ordersSchema {}
          (chunkRows 3 (sortStrs (dkeys ordersSchema))) 40 := by
      simp [layout_tables, hne]
    rw [hnames, hch] at hlt
    have hbd : build_drawio ordersSchema {} =
        ⟨buildCellMaps (layoutRowsGo ordersSchema {}
            [[strOf "customers", strOf "orders"]] 40),
          (buildEdges ordersSchema
            (buildCellMaps (layoutRowsGo ordersSchema {}
              [[strOf "customers", strOf "orders"]] 40))).1⟩ := by
      simp only [build_drawio, hlt]
    rw [hbd]
    decide

theorem c6_edge_anchor_resolution_witness :
    resolveTargetCell [] ordersSchema (strOf "customers") none (strOf "id") =
      ((match (none : Option Str) with
        | some c => dget ([] : List ((Str × Str) × Str))
            (strOf "customers", pyLower c)
        | none => none) <|>
       dget ([] : List ((Str × Str) × Str))
         (strOf "customers", pyLower (strOf "id")) <|>
       ((sortStrs customersTable.primary_key).map pyLower).findSome?
         (fun cand => dget ([] : List ((Str × Str) × Str))
           (strOf "customers", cand))) :=
  c6_edge_anchor_resolution.1 [] ordersSchema (strOf "customers") none
    (strOf "id") customersTable (by decide)

end ClaimC6

section CanvasDims

/-!
## Canvas bookkeeping: every drawing operation preserves the canvas
dimensions and the pixel-buffer length
-/

theorem setBytes3_length (px : List Nat) (idx : Nat) (col : RGB) :
    (setBytes3 px idx col).length = px.length := by
  simp [setBytes3]

theorem foldl_canvas_dims {β : Type} (f : Canvas → β → Canvas)
    (hf : ∀ c b, (f c b).width = c.width ∧ (f c b).height = c.height ∧
      (f c b).pixels.length = c.pixels.length) :
    ∀ (l : List β) (c : Canvas),
      (l.foldl f c).width = c.width ∧ (l.foldl f c).height = c.height ∧
      (l.foldl f c).pixels.length = c.pixels.length := by
  intro l
  induction l with
  | nil => intro c; exact ⟨rfl, rfl, rfl⟩
  | cons b bs ih =>
    intro c
    obtain ⟨h1, h2, h3⟩ := ih (f c b)
    obtain ⟨g1, g2, g3⟩ := hf c b
    simp only [List.foldl_cons]
    exact ⟨h1.trans g1, h2.trans g2, h3.trans g3⟩

theorem foldl_bytes_length {β : Type} (g : List Nat → β → List Nat)
    (hg : ∀ px b, (g px b).length = px.length) :
    ∀ (l : List β) (px : List Nat), (l.foldl g px).length = px.length := by
  intro l
  induction l with
  | nil => intro px; rfl
  | cons b bs ih =>
    intro px
    simp only [List.foldl_cons]
    exact (ih (g px b)).trans (hg px b)

theorem set_pixel_dims (c : Canvas) (x y : Int) (col : RGB) :
    (c.set_pixel x y col).width = c.width ∧
    (c.set_pixel x y col).height = c.height ∧
    (c.set_pixel x y col).pixels.length = c.pixels.length := by
  unfold Canvas.set_pixel
  split
  · exact ⟨rfl, rfl, by simp [setBytes3]⟩
  · exact ⟨rfl, rfl, rfl⟩

theorem fill_rect_dims (c : Canvas) (x0 y0 x1 y1 : Int) (col : RGB) :
    (c.fill_rect x0 y0 x1 y1 col).width = c.width ∧
    (c.fill_rect x0 y0 x1 y1 col).height = c.height ∧
    (c.fill_rect x0 y0 x1 y1 col).pixels.length = c.pixels.length := by
  simp only [Canvas.fill_rect]
  split
  · exact ⟨rfl, rfl, rfl⟩
  · refine ⟨rfl, rfl, ?_⟩
    exact foldl_bytes_length _
      (fun px y => foldl_bytes_length _
        (fun px x => setBytes3_length px _ col) _ px) _ _

theorem draw_hline_dims (c : Canvas) (x0 x1 y : Int) (col : RGB) :
    (c.draw_hline x0 x1 y col).width = c.width ∧
    (c.draw_hline x0 x1 y col).height = c.height ∧
    (c.draw_hline x0 x1 y col).pixels.length = c.pixels.length := by
  simp only [Canvas.draw_hline]
  split
  · exact foldl_canvas_dims _ (fun c (b : Nat) => set_pixel_dims c (b : Int) y col) _ _
  · exact ⟨rfl, rfl, rfl⟩

theorem draw_vline_dims (c : Canvas) (x y0 y1 : Int) (col : RGB) :
    (c.draw_vline x y0 y1 col).width = c.width ∧
    (c.draw_vline x y0 y1 col).height = c.height ∧
    (c.draw_vline x y0 y1 col).pixels.length = c.pixels.length := by
  simp only [Canvas.draw_vline]
  split
  · exact foldl_canvas_dims _ (fun c (b : Nat) => set_pixel_dims c x (b : Int) col) _ _
  · exact ⟨rfl, rfl, rfl⟩

theorem draw_rect_outline_dims (c : Canvas) (x0 y0 x1 y1 : Int) (col : RGB) :
    (c.draw_rect_outline x0 y0 x1 y1 col).width = c.width ∧
    (c.draw_rect_outline x0 y0 x1 y1 col).height = c.height ∧
    (c.draw_rect_outline x0 y0 x1 y1 col).pixels.length = c.pixels.length := by
  simp only [Canvas.draw_rect_outline]
  obtain ⟨a1, a2, a3⟩ := draw_hline_dims c x0 x1 y0 col
  obtain ⟨b1, b2, b3⟩ := draw_hline_dims (c.draw_hline x0 x1 y0 col) x0 x1 (y1 - 1) col
  obtain ⟨c1, c2, c3⟩ := draw_vline_dims
    ((c.draw_hline x0 x1 y0 col).draw_hline x0 x1 (y1 - 1) col) x0 y0 y1 col
  obtain ⟨d1, d2, d3⟩ := draw_vline_dims
    (((c.draw_hline x0 x1 y0 col).draw_hline x0 x1 (y1 - 1) col).draw_vline x0 y0 y1 col)
    (x1 - 1) y0 y1 col
  exact ⟨((d1.trans c1).trans b1).trans a1, ((d2.trans c2).trans b2).trans a2,
    ((d3.trans c3).trans b3).trans a3⟩

theorem blit_glyph_dims (c : Canvas) (x y : Int) (glyph : List Str) (col : RGB)
    (scale : Nat) :
    (c.blit_glyph x y glyph col scale).width = c.width ∧
    (c.blit_glyph x y glyph col scale).height = c.height ∧
    (c.blit_glyph x y glyph col scale).pixels.length = c.pixels.length := by
  unfold Canvas.blit_glyph
  refine foldl_canvas_dims _ ?_ _ _
  intro c1 rowPair
  refine foldl_canvas_dims _ ?_ _ _
  intro c2 colPair
  split
  · refine foldl_canvas_dims _ ?_ _ _
    intro c3 sy
    refine foldl_canvas_dims _ ?_ _ _
    intro c4 sx
    exact set_pixel_dims _ _ _ _
  · exact ⟨rfl, rfl, rfl⟩

theorem draw_text_dims (c : Canvas) (x y : Int) (text : Str) (col : RGB)
    (scale : Nat) :
    (c.draw_text x y text col scale).width = c.width ∧
    (c.draw_text x y text col scale).height = c.height ∧
    (c.draw_text x y text col scale).pixels.length = c.pixels.length := by
  simp only [Canvas.draw_text]
  refine foldl_canvas_dims _ ?_ _ _
  intro c1 linePair
  refine foldl_canvas_dims _ ?_ _ _
  intro c2 chPair
  exact blit_glyph_dims _ _ _ _ _ _

theorem renderTableColumn_dims (x width left_width rowStart row_height : Int)
    (st : Bool) (cv : Canvas) (p : Nat × Column) :
    (renderTableColumn x width left_width rowStart row_height st cv p).width =
      cv.width ∧
    (renderTableColumn x width left_width rowStart row_height st cv p).height =
      cv.height ∧
    (renderTableColumn x width left_width rowStart row_height st cv p).pixels.length =
      cv.pixels.length := by
  simp only [renderTableColumn]
  obtain ⟨a1, a2, a3⟩ := draw_hline_dims cv x (x + width)
    (rowStart + (p.1 : Int) * row_height) ROW_BORDER
  obtain ⟨b1, b2, b3⟩ := fill_rect_dims _ x (rowStart + (p.1 : Int) * row_height)
    (x + left_width) (rowStart + (p.1 : Int) * row_height + row_height) TABLE_FILL
  obtain ⟨c1, c2, c3⟩ := draw_vline_dims _ (x + left_width)
    (rowStart + (p.1 : Int) * row_height)
    (rowStart + (p.1 : Int) * row_height + row_height) ROW_BORDER
  split
  · obtain ⟨d1, d2, d3⟩ := draw_text_dims _ (x + 6)
      (rowStart + (p.1 : Int) * row_height + 8) (strOf "PK") TEXT_COLOR 2
    obtain ⟨e1, e2, e3⟩ := draw_text_dims _ (x + left_width + 6)
      (rowStart + (p.1 : Int) * row_height + 8) (columnLabel p.2 st) TEXT_COLOR 2
    exact ⟨(((e1.trans d1).trans c1).trans b1).trans a1,
      (((e2.trans d2).trans c2).trans b2).trans a2,
      (((e3.trans d3).trans c3).trans b3).trans a3⟩
  · obtain ⟨e1, e2, e3⟩ := draw_text_dims _ (x + left_width + 6)
      (rowStart + (p.1 : Int) * row_height + 8) (columnLabel p.2 st) TEXT_COLOR 2
    exact ⟨((e1.trans c1).trans b1).trans a1, ((e2.trans c2).trans b2).trans a2,
      ((e3.trans c3).trans b3).trans a3⟩

theorem renderTable_dims (cv : Canvas) (l : TableLayout) (cfg : LayoutConfig)
    (st : Bool) :
    (renderTable cv l cfg st).width = cv.width ∧
    (renderTable cv l cfg st).height = cv.height ∧
    (renderTable cv l cfg st).pixels.length = cv.pixels.length := by
  simp only [renderTable]
  obtain ⟨a1, a2, a3⟩ := fill_rect_dims cv (l.x * 2) (l.y * 2)
    (l.x * 2 + l.width * 2) (l.y * 2 + l.height * 2) TABLE_FILL
  obtain ⟨b1, b2, b3⟩ := draw_rect_outline_dims _ (l.x * 2) (l.y * 2)
    (l.x * 2 + l.width * 2) (l.y * 2 + l.height * 2) TABLE_BORDER
  obtain ⟨c1, c2, c3⟩ := draw_hline_dims _ (l.x * 2) (l.x * 2 + l.width * 2)
    (l.y * 2 + cfg.header_height * 2) TABLE_BORDER
  obtain ⟨d1, d2, d3⟩ := draw_text_dims _ (l.x * 2 + 6) (l.y * 2 + 8)
    (pyUpper l.table.name) HEADER_TEXT 2
  obtain ⟨e1, e2, e3⟩ := foldl_canvas_dims
    (renderTableColumn (l.x * 2) (l.width * 2) (30 * 2)
      (l.y * 2 + cfg.header_height * 2) (cfg.row_height * 2) st)
    (fun c b => renderTableColumn_dims _ _ _ _ _ st c b)
    ((List.range l.table.columns.length).zip l.table.columns) _
  obtain ⟨f1, f2, f3⟩ := draw_hline_dims _ (l.x * 2) (l.x * 2 + l.width * 2)
    (l.y * 2 + l.height * 2) ROW_BORDER
  split
  · obtain ⟨g1, g2, g3⟩ := draw_text_dims _ (l.x * 2)
      ((l.y + l.height + cfg.index_note_margin) * 2)
      (pyJoinChar '\n' (l.note_lines.map pyUpper)) NOTE_TEXT 2
    exact ⟨(((((g1.trans f1).trans e1).trans d1).trans c1).trans b1).trans a1,
      (((((g2.trans f2).trans e2).trans d2).trans c2).trans b2).trans a2,
      (((((g3.trans f3).trans e3).trans d3).trans c3).trans b3).trans a3⟩
  · exact ⟨((((f1.trans e1).trans d1).trans c1).trans b1).trans a1,
      ((((f2.trans e2).trans d2).trans c2).trans b2).trans a2,
      ((((f3.trans e3).trans d3).trans c3).trans b3).trans a3⟩

theorem canvasInit_pixlen (w h : Nat) (bg : RGB) :
    (canvasInit w h bg).pixels.length = w * h * 3 := by
  simp [canvasInit]

end CanvasDims

section SingleTableCanvas

/-!
## The canvas of a one-table, one-column schema under the default
configuration
-/

theorem layout_tables_single (nm : Str) (t : Table) (h1 : t.columns.length = 1) :
    layout_tables [(nm, t)] {} =
      [{ table := t, x := 80, y := 40, width := 290, height := 60 }] := by
  have hne : sortStrs (dkeys [(nm, t)]) ≠ [] := by
    simp [dkeys, sortStrs, sortStrs.insert]
  have hr : List.range 1 = [0] := rfl
  simp [layout_tables, dkeys, sortStrs, sortStrs.insert, chunkRows, layoutRowsGo,
    layoutRow, dget, calculate_table_height, h1, listMaxD, hr]

theorem computeCanvasDimensions_single (t : Table) :
    computeCanvasDimensions
      [{ table := t, x := 80, y := 40, width := 290, height := 60 }]
      ({} : LayoutConfig) = (900, 280) := by
  simp [computeCanvasDimensions, listMaxD]

theorem renderCanvas_single (nm : Str) (t : Table) (h1 : t.columns.length = 1) :
    (renderCanvas [(nm, t)] {} false).width = 900 ∧
    (renderCanvas [(nm, t)] {} false).height = 280 ∧
    (renderCanvas [(nm, t)] {} false).pixels.length = 756000 := by
  simp only [renderCanvas, layout_tables_single nm t h1,
    computeCanvasDimensions_single, List.foldl_cons, List.foldl_nil]
  obtain ⟨hw, hh, hl⟩ := renderTable_dims (canvasInit 900 280 BACKGROUND)
    { table := t, x := 80, y := 40, width := 290, height := 60 } {} false
  refine ⟨hw.trans rfl, hh.trans rfl, hl.trans ?_⟩
  rw [canvasInit_pixlen]

end SingleTableCanvas

section PngParse

/-!
## PNG container framing lemmas
-/

theorem natXor_lt_pow32 {a b : Nat} (ha : a < 2 ^ 32) (hb : b < 2 ^ 32) :
    a ^^^ b < 2 ^ 32 := Nat.xor_lt_two_pow ha hb

theorem crcRound_lt {c : Nat} (h : c < 2 ^ 32) : crcRound c < 2 ^ 32 := by
  unfold crcRound
  split
  · exact natXor_lt_pow32 (by omega) (by norm_num)
  · omega

theorem crcByteStep_lt {crc : Nat} (b : Nat) (h : crc < 2 ^ 32) :
    crcByteStep crc b < 2 ^ 32 := by
  unfold crcByteStep
  exact crcRound_lt (crcRound_lt (crcRound_lt (crcRound_lt (crcRound_lt
    (crcRound_lt (crcRound_lt (crcRound_lt (natXor_lt_pow32 h (by omega)))))))))

theorem crc32_lt (data : List Nat) : crc32 data < 2 ^ 32 := by
  unfold crc32
  have hfold : ∀ (l : List Nat) (c : Nat), c < 2 ^ 32 →
      l.foldl crcByteStep c < 2 ^ 32 := by
    intro l
    induction l with
    | nil => intro c h; simpa using h
    | cons b bs ih =>
      intro c h
      simpa using ih _ (crcByteStep_lt b h)
  exact natXor_lt_pow32 (hfold data _ (by norm_num)) (by norm_num)

theorem parseChunks_nil : parseChunks [] = some [] := by
  rw [parseChunks.eq_def]
  simp

theorem parseChunks_eq (l : List Nat) (n : Nat) (hne : l ≠ [])
    (hn : beVal (l.take 4) = n) (h : 12 + n ≤ l.length) :
    parseChunks l = match parseChunks (l.drop (12 + n)) with
      | none => none
      | some rest => some (⟨(l.drop 4).take 4, (l.drop 8).take n,
          beVal ((l.drop (8 + n)).take 4)⟩ :: rest) := by
  subst hn
  rw [parseChunks.eq_def]
  simp only [hne, if_false, dif_pos h]

theorem beVal_be4 (n : Nat) (h : n < 2 ^ 32) : beVal (be4 n) = n := by
  simp [beVal, be4]
  omega

theorem parseChunks_cons (tag data rest : List Nat) (htag : tag.length = 4)
    (hn : data.length < 2 ^ 32) :
    parseChunks (chunkBytes tag data ++ rest) =
      (parseChunks rest).map
        (fun cs => ⟨tag, data, crc32 (tag ++ data)⟩ :: cs) := by
  have hbe4len : ∀ m, (be4 m).length = 4 := by intro m; simp [be4]
  set c := crc32 (tag ++ data) with hc
  have hshape : chunkBytes tag data ++ rest =
      be4 data.length ++ (tag ++ (data ++ (be4 c ++ rest))) := by
    simp [chunkBytes, List.append_assoc]
  have h1 : (chunkBytes tag data ++ rest).take 4 = be4 data.length := by
    rw [hshape, List.take_left' (hbe4len _)]
  have h2 : (chunkBytes tag data ++ rest).drop 4 =
      tag ++ (data ++ (be4 c ++ rest)) := by
    rw [hshape, List.drop_left' (hbe4len _)]
  have h3 : (chunkBytes tag data ++ rest).drop 8 = data ++ (be4 c ++ rest) := by
    have h8 : (8 : Nat) = 4 + 4 := rfl
    rw [h8, ← List.drop_drop, h2, List.drop_left' htag]
  have h4 : (chunkBytes tag data ++ rest).drop (8 + data.length) =
      be4 c ++ rest := by
    have h := congrArg (List.drop data.length) h3
    rw [List.drop_drop, List.drop_left' rfl] at h
    exact h
  have h5 : ((chunkBytes tag data ++ rest).drop 4).take 4 = tag := by
    rw [h2, List.take_left' htag]
  have h6 : ((chunkBytes tag data ++ rest).drop 8).take data.length = data := by
    rw [h3, List.take_left' rfl]
  have h7 : ((chunkBytes tag data ++ rest).drop (8 + data.length)).take 4 =
      be4 c := by
    rw [h4, List.take_left' (hbe4len _)]
  have h8 : (chunkBytes tag data ++ rest).drop (12 + data.length) = rest := by
    have h := congrArg (List.drop 4) h4
    rw [List.drop_drop, List.drop_left' (hbe4len _)] at h
    rw [show 12 + data.length = 8 + data.length + 4 from by omega]
    exact h
  have hlen : (chunkBytes tag data ++ rest).length =
      12 + data.length + rest.length := by
    rw [hshape]
    simp [hbe4len, htag]
    omega
  have hne : chunkBytes tag data ++ rest ≠ [] := by
    rw [hshape]
    simp [be4]
  have hbv : beVal ((chunkBytes tag data ++ rest).take 4) = data.length := by
    rw [h1, beVal_be4 _ hn]
  rw [parseChunks_eq _ data.length hne hbv (by omega)]
  rw [h8, h5, h6, h7, beVal_be4 _ (by rw [hc]; exact crc32_lt _)]
  cases parseChunks rest with
  | none => rfl
  | some cs => rfl

theorem parseChunks_specs (specs : List (List Nat × List Nat))
    (htag : ∀ td ∈ specs, td.1.length = 4)
    (hlen : ∀ td ∈ specs, td.2.length < 2 ^ 32) :
    parseChunks ((specs.map (fun td => chunkBytes td.1 td.2)).flatten) =
      some (specs.map (fun td => ⟨td.1, td.2, crc32 (td.1 ++ td.2)⟩)) := by
  induction specs with
  | nil => simpa using parseChunks_nil
  | cons td rest ih =>
    simp only [List.map_cons, List.flatten_cons]
    rw [parseChunks_cons td.1 td.2 _ (htag td (List.mem_cons_self _ _))
      (hlen td (List.mem_cons_self _ _))]
    rw [ih (fun x hx => htag x (List.mem_cons_of_mem _ hx))
      (fun x hx => hlen x (List.mem_cons_of_mem _ hx))]
    rfl

theorem savePngChunkSpecs_tags (compress : List Nat → List Nat)
    (w h : Nat) (pix : List Nat) (xmlOpt : Option Str) :
    ∀ td ∈ savePngChunkSpecs compress w h pix xmlOpt, td.1.length = 4 := by
  intro td htd
  cases xmlOpt with
  | none =>
    simp [savePngChunkSpecs] at htd
    rcases htd with h | h | h <;>
      simp [h, tagIHDR, tagIDAT, tagIEND, strToBytes, strOf]
  | some xml =>
    simp [savePngChunkSpecs] at htd
    rcases htd with h | h | h | h | h <;>
      simp [h, tagIHDR, tagIDAT, tagIEND, tagITXT, strToBytes, strOf]

theorem pngRawData_length (width height : Nat) (pixels : List Nat)
    (h : pixels.length = width * 3 * height) :
    (pngRawData width height pixels).length = height * (1 + width * 3) := by
  have hrow : ((List.range height).map (fun y =>
      0 :: ((pixels.drop (y * (width * 3))).take (width * 3)))).map
        List.length = List.replicate height (1 + width * 3) := by
    rw [List.map_map]
    refine List.eq_replicate_iff.2 ⟨by simp, ?_⟩
    intro b hb
    rcases List.mem_map.mp hb with ⟨y, hy, hby⟩
    have hy' : y < height := List.mem_range.mp hy
    obtain ⟨k, hk⟩ := Nat.exists_eq_add_of_lt hy'
    subst hk
    rw [← hby]
    simp only [Function.comp_apply, List.length_cons, List.length_take,
      List.length_drop, h]
    have hsub : width * 3 * (y + k + 1) - y * (width * 3) =
        width * 3 * k + width * 3 := by
      have hd : width * 3 * (y + k + 1) =
          y * (width * 3) + (width * 3 * k + width * 3) := by ring
      rw [hd, Nat.add_sub_cancel_left]
    rw [hsub, Nat.min_eq_left (Nat.le_add_left _ _)]
    omega
  rw [pngRawData, List.length_flatten, hrow, List.sum_replicate, smul_eq_mul]

end PngParse

section ClaimC7

/-!
## C7: PNG container framing
-/

/-- C7: every chunk `save_png` writes is framed as the 4-byte big-endian
payload length, the 4-byte ASCII tag, the payload, then the CRC-32 of
tag plus payload (so re-parsing the stream after the fixed 8-byte
signature recovers exactly the written (tag, payload) sequence with every
stored CRC verifying); and for a one-table, one-column schema the output
is the signature followed by exactly an IHDR chunk (8-bit depth,
truecolor), one IDAT chunk, and one empty IEND chunk, where the IDAT
payload decompresses to the scanlines of the canvas each prefixed with a
filter byte of zero. -/
theorem c7_png_container (compress decompress : List Nat → List Nat)
    (width height : Nat) (pixels : List Nat) (xmlOpt : Option Str)
    (nm : Str) (t : Table) (c0 : Column)
    (hlen : ∀ td ∈ savePngChunkSpecs compress width height pixels xmlOpt,
      td.2.length < 2 ^ 32)
    (hcols : t.columns = [c0])
    (hcomp : (compress (pngRawData 900 280
      (renderCanvas [(nm, t)] {} false).pixels)).length < 2 ^ 32)
    (hround : decompress (compress (pngRawData 900 280
        (renderCanvas [(nm, t)] {} false).pixels)) =
      pngRawData 900 280 (renderCanvas [(nm, t)] {} false).pixels) :
    ((save_png compress width height pixels xmlOpt).take 8 = pngSignature ∧
     parseChunks ((save_png compress width height pixels xmlOpt).drop 8) =
       some ((savePngChunkSpecs compress width height pixels xmlOpt).map
         (fun td => ⟨td.1, td.2, crc32 (td.1 ++ td.2)⟩))) ∧
    ((render_png [(nm, t)] compress {} false none).take 8 = pngSignature ∧
     parseChunks ((render_png [(nm, t)] compress {} false none).drop 8) =
       some [⟨tagIHDR, be4 900 ++ be4 280 ++ [8, 2, 0, 0, 0],
               crc32 (tagIHDR ++ (be4 900 ++ be4 280 ++ [8, 2, 0, 0, 0]))⟩,
             ⟨tagIDAT, compress (pngRawData 900 280
                 (renderCanvas [(nm, t)] {} false).pixels),
               crc32 (tagIDAT ++ compress (pngRawData 900 280
                 (renderCanvas [(nm, t)] {} false).pixels))⟩,
             ⟨tagIEND, [], crc32 tagIEND⟩] ∧
     decompress (compress (pngRawData 900 280
         (renderCanvas [(nm, t)] {} false).pixels)) =
       ((List.range 280).map (fun y =>
         0 :: (((renderCanvas [(nm, t)] {} false).pixels.drop
           (y * (900 * 3))).take (900 * 3)))).flatten) := by
  have h1 : t.columns.length = 1 := by rw [hcols]; rfl
  have hsig : pngSignature.length = 8 := rfl
  obtain ⟨hw, hh, hpl⟩ := renderCanvas_single nm t h1
  constructor
  · constructor
    · simp only [save_png]
      exact List.take_left' rfl
    · simp only [save_png]
      rw [List.drop_left' hsig]
      exact parseChunks_specs _ (savePngChunkSpecs_tags compress width height
        pixels xmlOpt) hlen
  · have hrp : render_png [(nm, t)] compress {} false none =
        save_png compress 900 280 (renderCanvas [(nm, t)] {} false).pixels
          none := by
      simp only [render_png, hw, hh]
    have hspec : savePngChunkSpecs compress 900 280
        (renderCanvas [(nm, t)] {} false).pixels none =
        [(tagIHDR, be4 900 ++ be4 280 ++ [8, 2, 0, 0, 0]),
         (tagIDAT, compress (pngRawData 900 280
           (renderCanvas [(nm, t)] {} false).pixels)),
         (tagIEND, [])] := rfl
    refine ⟨?_, ?_, ?_⟩
    · rw [hrp]
      simp only [save_png]
      exact List.take_left' rfl
    · rw [hrp]
      simp only [save_png]
      rw [List.drop_left' hsig, hspec]
      rw [parseChunks_specs _ ?_ ?_]
      · rfl
      · intro td htd
        rcases (by simpa using htd : td = _ ∨ td = _ ∨ td = _) with h | h | h <;>
          simp [h, tagIHDR, tagIDAT, tagIEND, strToBytes, strOf]
      · intro td htd
        rcases (by simpa using htd : td = _ ∨ td = _ ∨ td = _) with h | h | h
        · rw [h]
          simp [be4]
        · rw [h]
          exact hcomp
        · rw [h]
          simp
    · rw [hround]
      rfl

theorem c7_png_container_witness :
    (∀ td ∈ savePngChunkSpecs id 0 0 ([] : List Nat) none,
      td.2.length < 2 ^ 32) ∧
    (save_png id 0 0 [] none).take 8 = pngSignature ∧
    parseChunks ((save_png id 0 0 [] none).drop 8) =
      some ((savePngChunkSpecs id 0 0 [] none).map
        (fun td => ⟨td.1, td.2, crc32 (td.1 ++ td.2)⟩)) := by
  have hcomp : (id (pngRawData 900 280
      (renderCanvas [(strOf "customers", customersTable)] {}
        false).pixels)).length < 2 ^ 32 := by
    have hp := (renderCanvas_single (strOf "customers") customersTable rfl).2.2
    have hr := pngRawData_length 900 280
      (renderCanvas [(strOf "customers", customersTable)] {} false).pixels
      (by rw [hp])
    simp only [id_eq, hr]
    norm_num
  have h := c7_png_container id id 0 0 [] none (strOf "customers")
    customersTable
    { name := strOf "id", data_type := strOf "INT", is_primary_key := true }
    (by decide) rfl hcomp rfl
  exact ⟨by decide, h.1.1, h.1.2⟩

end ClaimC7

section CanvasFrame

/-!
## Canvas frame lemmas: pixels outside the written region are unchanged
-/

theorem pixIndex_inj {w a b a' b' : Nat} (hb : b < w) (hb' : b' < w)
    (h : a * w + b = a' * w + b') : a = a' ∧ b = b' := by
  have hbb : b = b' := by
    have e1 : (a * w + b) % w = b := by
      rw [Nat.mul_comm a w, Nat.mul_add_mod, Nat.mod_eq_of_lt hb]
    have e2 : (a' * w + b') % w = b' := by
      rw [Nat.mul_comm a' w, Nat.mul_add_mod, Nat.mod_eq_of_lt hb']
    rw [← e1, h, e2]
  refine ⟨?_, hbb⟩
  have hw : 0 < w := by omega
  have hmul : a * w = a' * w := by omega
  exact Nat.eq_of_mul_eq_mul_right hw hmul

theorem setBytes3_get?_frame (pxl : List Nat) (q p r : Nat) (col : RGB)
    (hq : q ≠ p) (hr : r < 3) :
    (setBytes3 pxl (q * 3) col).get? (p * 3 + r) = pxl.get? (p * 3 + r) := by
  unfold setBytes3
  rw [List.get?_set_ne _ _ (by omega), List.get?_set_ne _ _ (by omega),
    List.get?_set_ne _ _ (by omega)]

theorem set_pixel_frame (c : Canvas) (x y : Int) (col : RGB) (px py : Nat)
    (hpx : px < c.width) (hne : (px : Int) ≠ x ∨ (py : Int) ≠ y) :
    getPixel (c.set_pixel x y col) px py = getPixel c px py := by
  unfold Canvas.set_pixel
  split
  case isTrue hin =>
    obtain ⟨hx0, hxw, hy0, hyh⟩ := hin
    have hxn : x.toNat < c.width := by omega
    have hq : y.toNat * c.width + x.toNat ≠ py * c.width + px := by
      intro he
      obtain ⟨hy', hx'⟩ := pixIndex_inj hxn hpx he
      rcases hne with h | h
      · apply h; omega
      · apply h; omega
    simp only [getPixel]
    have e0 : (setBytes3 c.pixels ((y.toNat * c.width + x.toNat) * 3) col).get?
        ((py * c.width + px) * 3) = c.pixels.get? ((py * c.width + px) * 3) := by
      simpa using setBytes3_get?_frame c.pixels _ _ 0 col hq (by omega)
    have e1 := setBytes3_get?_frame c.pixels (y.toNat * c.width + x.toNat)
      (py * c.width + px) 1 col hq (by omega)
    have e2 := setBytes3_get?_frame c.pixels (y.toNat * c.width + x.toNat)
      (py * c.width + px) 2 col hq (by omega)
    rw [e0, e1, e2]
  case isFalse => rfl

theorem fillFoldInner_frame (w px py y : Nat) (col : RGB) (hpx : px < w)
    (xs : List Nat) (hxs : ∀ x ∈ xs, ¬(x = px ∧ y = py) ∧ x < w) :
    ∀ (pxl : List Nat) (r : Nat), r < 3 →
    (xs.foldl (fun pxl x => setBytes3 pxl ((y * w + x) * 3) col) pxl).get?
        ((py * w + px) * 3 + r) = pxl.get? ((py * w + px) * 3 + r) := by
  induction xs with
  | nil => intro pxl r hr; rfl
  | cons a as ih =>
    intro pxl r hr
    simp only [List.foldl_cons]
    obtain ⟨hmiss, haw⟩ := hxs a (List.mem_cons_self _ _)
    have hq : y * w + a ≠ py * w + px := by
      intro he
      obtain ⟨h1, h2⟩ := pixIndex_inj haw hpx he
      exact hmiss ⟨h2, h1⟩
    rw [ih (fun x hx => hxs x (List.mem_cons_of_mem _ hx)) _ r hr,
      setBytes3_get?_frame _ _ _ r col hq hr]

theorem fillFold_frame (w px py : Nat) (col : RGB) (hpx : px < w)
    (xs ys : List Nat) (hxs : ∀ x ∈ xs, x < w)
    (hmiss : ∀ y ∈ ys, ∀ x ∈ xs, ¬(x = px ∧ y = py)) :
    ∀ (pxl : List Nat) (r : Nat), r < 3 →
    (ys.foldl (fun pxl y =>
        xs.foldl (fun pxl x => setBytes3 pxl ((y * w + x) * 3) col) pxl)
      pxl).get? ((py * w + px) * 3 + r) =
      pxl.get? ((py * w + px) * 3 + r) := by
  induction ys with
  | nil => intro pxl r hr; rfl
  | cons b bs ih =>
    intro pxl r hr
    simp only [List.foldl_cons]
    rw [ih (fun y hy x hx => hmiss y (List.mem_cons_of_mem _ hy) x hx) _ r hr,
      fillFoldInner_frame w px py b col hpx xs
        (fun x hx => ⟨hmiss b (List.mem_cons_self _ _) x hx, hxs x hx⟩) _ r hr]

theorem fill_rect_frame (c : Canvas) (x0 y0 x1 y1 : Int) (col : RGB)
    (px py : Nat) (hpx : px < c.width)
    (hout : ¬(x0 ≤ (px : Int) ∧ (px : Int) < x1 ∧
      y0 ≤ (py : Int) ∧ (py : Int) < y1)) :
    getPixel (c.fill_rect x0 y0 x1 y1 col) px py = getPixel c px py := by
  simp only [Canvas.fill_rect]
  split
  · rfl
  case isFalse hdeg =>
    simp only [getPixel]
    have hxs : ∀ x ∈ List.range' (max 0 x0).toNat
        (min (c.width : Int) x1 - max 0 x0).toNat, x < c.width := by
      intro x hx
      have := List.mem_range'_1.mp hx
      omega
    have hmiss : ∀ y ∈ List.range' (max 0 y0).toNat
          (min (c.height : Int) y1 - max 0 y0).toNat,
        ∀ x ∈ List.range' (max 0 x0).toNat
          (min (c.width : Int) x1 - max 0 x0).toNat,
        ¬(x = px ∧ y = py) := by
      intro y hy x hx he
      obtain ⟨rfl, rfl⟩ := he
      have h1 := List.mem_range'_1.mp hy
      have h2 := List.mem_range'_1.mp hx
      omega
    have e0 : ∀ r, r < 3 →
        ((List.range' (max 0 y0).toNat
            (min (c.height : Int) y1 - max 0 y0).toNat).foldl
          (fun pxl y =>
            (List.range' (max 0 x0).toNat
              (min (c.width : Int) x1 - max 0 x0).toNat).foldl
              (fun pxl x => setBytes3 pxl ((y * c.width + x) * 3) col) pxl)
          c.pixels).get? ((py * c.width + px) * 3 + r) =
        c.pixels.get? ((py * c.width + px) * 3 + r) :=
      fun r hr => fillFold_frame c.width px py col hpx _ _ hxs hmiss c.pixels r hr
    have f0 := e0 0 (by omega)
    have f1 := e0 1 (by omega)
    have f2 := e0 2 (by omega)
    simp only [Nat.add_zero] at f0
    rw [f0, f1, f2]

theorem foldl_canvas_frame {β : Type} (f : Canvas → β → Canvas) (px py w : Nat)
    (hdims : ∀ c b, (f c b).width = c.width) :
    ∀ (l : List β) (c : Canvas), c.width = w →
    (∀ (c' : Canvas) (b : β), c'.width = w → b ∈ l →
      getPixel (f c' b) px py = getPixel c' px py) →
    getPixel (l.foldl f c) px py = getPixel c px py := by
  intro l
  induction l with
  | nil => intro c _ _; rfl
  | cons b bs ih =>
    intro c hcw hstep
    simp only [List.foldl_cons]
    rw [ih (f c b) ((hdims c b).trans hcw)
      (fun c' b' hw' hb' => hstep c' b' hw' (List.mem_cons_of_mem _ hb'))]
    exact hstep c b hcw (List.mem_cons_self _ _)

theorem draw_hline_frame (c : Canvas) (x0 x1 y : Int) (col : RGB) (px py : Nat)
    (hpx : px < c.width)
    (hout : ¬((py : Int) = y ∧ x0 ≤ (px : Int) ∧ (px : Int) < x1)) :
    getPixel (c.draw_hline x0 x1 y col) px py = getPixel c px py := by
  simp only [Canvas.draw_hline]
  split
  case isTrue hy =>
    refine foldl_canvas_frame _ px py c.width
      (fun c (b : Nat) => (set_pixel_dims c (b : Int) y col).1) _ c rfl ?_
    intro c' b hw' hb
    have hbm := List.mem_range'_1.mp hb
    refine set_pixel_frame c' _ y col px py (by rw [hw']; exact hpx) ?_
    by_cases hpy : (py : Int) = y
    · left
      intro hbx
      exact hout ⟨hpy, by omega, by omega⟩
    · right
      exact hpy
  case isFalse => rfl

theorem draw_vline_frame (c : Canvas) (x y0 y1 : Int) (col : RGB) (px py : Nat)
    (hpx : px < c.width)
    (hout : ¬((px : Int) = x ∧ y0 ≤ (py : Int) ∧ (py : Int) < y1)) :
    getPixel (c.draw_vline x y0 y1 col) px py = getPixel c px py := by
  simp only [Canvas.draw_vline]
  split
  case isTrue hx =>
    refine foldl_canvas_frame _ px py c.width
      (fun c (b : Nat) => (set_pixel_dims c x (b : Int) col).1) _ c rfl ?_
    intro c' b hw' hb
    have hbm := List.mem_range'_1.mp hb
    refine set_pixel_frame c' x _ col px py (by rw [hw']; exact hpx) ?_
    by_cases hpx' : (px : Int) = x
    · right
      intro hby
      exact hout ⟨hpx', by omega, by omega⟩
    · left
      exact hpx'
  case isFalse => rfl

end CanvasFrame

section ClaimC10

/-!
## C10: canvas drawing safety
-/

/-- C10: every drawing operation is total over all integer coordinates:
`set_pixel` keeps the dimensions and buffer length, is the identity when
the coordinate is outside `[0, width) × [0, height)`, and leaves every
other pixel unchanged; `fill_rect`, `draw_hline` and `draw_vline` keep
the dimensions and buffer length and leave every pixel outside the
requested region unchanged; `draw_text` (the text path built on the same
primitives) keeps the dimensions and buffer length. -/
theorem c10_canvas_safety :
    (∀ (c : Canvas) (x y : Int) (col : RGB),
      (c.set_pixel x y col).width = c.width ∧
      (c.set_pixel x y col).height = c.height ∧
      (c.set_pixel x y col).pixels.length = c.pixels.length ∧
      (¬(0 ≤ x ∧ x < (c.width : Int) ∧ 0 ≤ y ∧ y < (c.height : Int)) →
        c.set_pixel x y col = c)) ∧
    (∀ (c : Canvas) (x y : Int) (col : RGB) (px py : Nat), px < c.width →
      ((px : Int) ≠ x ∨ (py : Int) ≠ y) →
      getPixel (c.set_pixel x y col) px py = getPixel c px py) ∧
    (∀ (c : Canvas) (x0 y0 x1 y1 : Int) (col : RGB),
      (c.fill_rect x0 y0 x1 y1 col).width = c.width ∧
      (c.fill_rect x0 y0 x1 y1 col).height = c.height ∧
      (c.fill_rect x0 y0 x1 y1 col).pixels.length = c.pixels.length) ∧
    (∀ (c : Canvas) (x0 y0 x1 y1 : Int) (col : RGB) (px py : Nat),
      px < c.width →
      ¬(x0 ≤ (px : Int) ∧ (px : Int) < x1 ∧ y0 ≤ (py : Int) ∧ (py : Int) < y1) →
      getPixel (c.fill_rect x0 y0 x1 y1 col) px py = getPixel c px py) ∧
    (∀ (c : Canvas) (x0 x1 y : Int) (col : RGB),
      (c.draw_hline x0 x1 y col).width = c.width ∧
      (c.draw_hline x0 x1 y col).height = c.height ∧
      (c.draw_hline x0 x1 y col).pixels.length = c.pixels.length) ∧
    (∀ (c : Canvas) (x0 x1 y : Int) (col : RGB) (px py : Nat), px < c.width →
      ¬((py : Int) = y ∧ x0 ≤ (px : Int) ∧ (px : Int) < x1) →
      getPixel (c.draw_hline x0 x1 y col) px py = getPixel c px py) ∧
    (∀ (c : Canvas) (x y0 y1 : Int) (col : RGB),
      (c.draw_vline x y0 y1 col).width = c.width ∧
      (c.draw_vline x y0 y1 col).height = c.height ∧
      (c.draw_vline x y0 y1 col).pixels.length = c.pixels.length) ∧
    (∀ (c : Canvas) (x y0 y1 : Int) (col : RGB) (px py : Nat), px < c.width →
      ¬((px : Int) = x ∧ y0 ≤ (py : Int) ∧ (py : Int) < y1) →
      getPixel (c.draw_vline x y0 y1 col) px py = getPixel c px py) ∧
    (∀ (c : Canvas) (x y : Int) (text : Str) (col : RGB) (scale : Nat),
      (c.draw_text x y text col scale).width = c.width ∧
      (c.draw_text x y text col scale).height = c.height ∧
      (c.draw_text x y text col scale).pixels.length = c.pixels.length) := by
  refine ⟨?_, ?_, ?_, ?_, ?_, ?_, ?_, ?_, ?_⟩
  · intro c x y col
    obtain ⟨h1, h2, h3⟩ := set_pixel_dims c x y col
    refine ⟨h1, h2, h3, ?_⟩
    intro hout
    unfold Canvas.set_pixel
    rw [if_neg hout]
  · intro c x y col px py hpx hne
    exact set_pixel_frame c x y col px py hpx hne
  · intro c x0 y0 x1 y1 col
    exact fill_rect_dims c x0 y0 x1 y1 col
  · intro c x0 y0 x1 y1 col px py hpx hout
    exact fill_rect_frame c x0 y0 x1 y1 col px py hpx hout
  · intro c x0 x1 y col
    exact draw_hline_dims c x0 x1 y col
  · intro c x0 x1 y col px py hpx hout
    exact draw_hline_frame c x0 x1 y col px py hpx hout
  · intro c x y0 y1 col
    exact draw_vline_dims c x y0 y1 col
  · intro c x y0 y1 col px py hpx hout
    exact draw_vline_frame c x y0 y1 col px py hpx hout
  · intro c x y text col scale
    exact draw_text_dims c x y text col scale

theorem c10_canvas_safety_witness :
    (0 : Nat) < (canvasInit 2 2 BACKGROUND).width ∧
    getPixel ((canvasInit 2 2 BACKGROUND).set_pixel 1 1 TEXT_COLOR) 0 0 =
      getPixel (canvasInit 2 2 BACKGROUND) 0 0 ∧
    (canvasInit 2 2 BACKGROUND).set_pixel (-1) 0 TEXT_COLOR =
      canvasInit 2 2 BACKGROUND :=
  ⟨by decide,
   c10_canvas_safety.2.1 (canvasInit 2 2 BACKGROUND) 1 1 TEXT_COLOR 0 0
     (by decide) (by decide),
   (c10_canvas_safety.1 (canvasInit 2 2 BACKGROUND) (-1) 0 TEXT_COLOR).2.2.2
     (by decide)⟩

end ClaimC10
